import Mathlib

/-!
Verification of the `xsync.Map` concurrent map (a port of Go's `sync.Map`)
against its specification, via a shallow embedding of the sequential
(single-threaded) behaviour of the source.

Modelling conventions:
* An `entry[V]`'s atomic cell `p` holds one of: `nil`, the map's expunged
  sentinel pointer, or a pointer to a value.  This is the inductive `Cell`.
* Pointer-stable entries are modelled by a heap: a list of cells indexed by
  `Nat` ids.  Both the read-only snapshot and the dirty overlay map keys to
  entry ids, so entry sharing (the same `*entry` reachable from both) is
  literal sharing of the id.
* Go maps become association lists (`alookup`/`ainsert`/`aerase`); a `nil`
  Go map is `Option.none`, distinguished from an allocated empty map.
* The `atomic.Pointer[readOnly]` field is `Option (List (K × Nat) × Bool)`:
  `none` models the nil pointer of a zero-value `Map`, read back as an
  empty, non-amended `readOnly` by `loadReadOnly`.
* All executions are single-threaded, so every CAS loop in the source
  resolves in one iteration; each operation is a pure state transformer.
-/

set_option maxHeartbeats 1000000

namespace XSync

/-- The state of one entry's atomic cell: nil, the expunged sentinel, or a
pointer to a live value. -/
inductive Cell (V : Type) where
  | null : Cell V
  | expunged : Cell V
  | live : V → Cell V
  deriving DecidableEq, Repr

/-- `entry.load`: absent if the cell is nil or expunged, else the value. -/
def Cell.load {V : Type} : Cell V → Option V
  | .null => none
  | .expunged => none
  | .live v => some v

/-- `entry.tryCompareAndSwap(old, new)` run single-threaded: fails on a nil
or expunged cell or when the stored value differs from `old`; otherwise
installs `nw`. -/
def Cell.tryCompareAndSwap {V : Type} [DecidableEq V] (c : Cell V) (old nw : V) :
    Bool × Cell V :=
  match c with
  | .null => (false, .null)
  | .expunged => (false, .expunged)
  | .live v => if v = old then (true, .live nw) else (false, .live v)

/-- `entry.trySwap(&value)` run single-threaded: fails (first component
`none`) when the cell is expunged; otherwise returns the previous pointer
(`some none` for nil) and installs the value. -/
def Cell.trySwap {V : Type} (c : Cell V) (v : V) : Option (Option V) × Cell V :=
  match c with
  | .expunged => (none, .expunged)
  | .null => (some none, .live v)
  | .live w => (some (some w), .live v)

/-- `entry.delete` run single-threaded: nil/expunged cells fail, a live cell
is CASed to nil and its value returned. -/
def Cell.del {V : Type} : Cell V → Option V × Cell V
  | .null => (none, .null)
  | .expunged => (none, .expunged)
  | .live v => (some v, .null)

/-- `entry.tryLoadOrStore(i)` run single-threaded: fails (first component
`none`) on an expunged cell; returns the current value and `loaded = true`
on a live cell; stores into a nil cell returning `loaded = false`. -/
def Cell.tryLoadOrStore {V : Type} (c : Cell V) (v : V) :
    Option (V × Bool) × Cell V :=
  match c with
  | .expunged => (none, .expunged)
  | .live w => (some (w, true), .live w)
  | .null => (some (v, false), .live v)

/-- `entry.unexpungeLocked`: CAS expunged → nil, reporting whether the cell
was expunged. -/
def Cell.unexpungeLocked {V : Type} : Cell V → Bool × Cell V
  | .expunged => (true, .null)
  | .null => (false, .null)
  | .live v => (false, .live v)

/-- `entry.swapLocked(&value)`: unconditional pointer swap.  Dereferencing a
previous expunged sentinel pointer yields the zero value of `V`
(`default`); that case is unreachable in well-formed states. -/
def Cell.swapLocked {V : Type} [Inhabited V] (c : Cell V) (v : V) :
    Option V × Cell V :=
  match c with
  | .null => (none, .live v)
  | .expunged => (some default, .live v)
  | .live w => (some w, .live v)

/-- `entry.tryExpungeLocked` run single-threaded: a nil cell is CASed to the
sentinel; reports whether the cell ended up expunged. -/
def Cell.tryExpungeLocked {V : Type} : Cell V → Bool × Cell V
  | .null => (true, .expunged)
  | .expunged => (true, .expunged)
  | .live v => (false, .live v)

/-- The CAS-to-nil loop inlined in `Map.CompareAndDelete`, run
single-threaded: deletes exactly when the cell holds a live value equal to
`old`. -/
def Cell.compareAndDelete {V : Type} [DecidableEq V] (c : Cell V) (old : V) :
    Bool × Cell V :=
  match c with
  | .null => (false, .null)
  | .expunged => (false, .expunged)
  | .live v => if v = old then (true, .null) else (false, .live v)

/-- `true` iff the cell holds a live value. -/
def Cell.isLive {V : Type} : Cell V → Bool
  | .live _ => true
  | .null => false
  | .expunged => false

/-- The effect of `tryExpungeLocked` on a cell: nil becomes the sentinel,
everything else is unchanged. -/
def Cell.expungeStep {V : Type} : Cell V → Cell V
  | .null => .expunged
  | .expunged => .expunged
  | .live v => .live v

section AList

variable {K : Type} {α : Type} [DecidableEq K]

/-- Association-list lookup (models Go map indexing). -/
def alookup : List (K × α) → K → Option α
  | [], _ => none
  | (k', v) :: l, k => if k = k' then some v else alookup l k

/-- Association-list insert-or-replace (models Go map assignment). -/
def ainsert : List (K × α) → K → α → List (K × α)
  | [], k, v => [(k, v)]
  | (k', v') :: l, k, v =>
    if k = k' then (k, v) :: l else (k', v') :: ainsert l k v

/-- Association-list removal (models Go `delete`). -/
def aerase : List (K × α) → K → List (K × α)
  | [], _ => []
  | (k', v') :: l, k => if k = k' then l else (k', v') :: aerase l k

end AList

/-- Read a heap cell; out-of-range ids read as nil cells. -/
def hget {V : Type} (h : List (Cell V)) (i : Nat) : Cell V :=
  h.getD i Cell.null

/-- Write a heap cell in place. -/
def hset {V : Type} (h : List (Cell V)) (i : Nat) (c : Cell V) : List (Cell V) :=
  h.set i c

/-- The state of a `Map[K, V]`:
* `read`: the `atomic.Pointer[readOnly]`; `none` is the nil pointer of a
  zero-value map, `some (m, amended)` the published snapshot;
* `dirty`: the dirty overlay, `none` when the Go map is nil;
* `misses`: the miss counter;
* `heap`: the entry heap giving pointer identity to `*entry` values. -/
structure MapState (K V : Type) where
  read : Option (List (K × Nat) × Bool)
  dirty : Option (List (K × Nat))
  misses : Nat
  heap : List (Cell V)
  deriving Repr

/-- A zero-value `Map`: nil snapshot pointer, nil dirty map, zero misses. -/
def initState (K V : Type) : MapState K V :=
  { read := none, dirty := none, misses := 0, heap := [] }

/-- `Map.loadReadOnly`: a nil read pointer is an empty, non-amended
snapshot. -/
def loadRO {K V : Type} (s : MapState K V) : List (K × Nat) × Bool :=
  s.read.getD ([], false)

/-- The dirty overlay's contents, with a nil Go map read as empty. -/
def dirtyL {K V : Type} (s : MapState K V) : List (K × Nat) :=
  s.dirty.getD []

variable {K V : Type} [DecidableEq K] [DecidableEq V] [Inhabited V]

/-- `Map.missLocked`: count a miss; once the counter is no longer below the
dirty overlay's size, promote the dirty overlay wholesale into a fresh
non-amended snapshot, clear it and reset the counter. -/
def missLocked (s : MapState K V) : MapState K V :=
  let m := s.misses + 1
  if m < (dirtyL s).length then { s with misses := m }
  else { s with read := some (dirtyL s, false), dirty := none, misses := 0 }

/-- The loop body of `Map.dirtyLocked`: walk the snapshot's entries, try to
expunge each, and collect the non-expunged ones into the new dirty
overlay. -/
def expungeCopy {V : Type} (h : List (Cell V)) :
    List (K × Nat) → List (K × Nat) × List (Cell V)
  | [] => ([], h)
  | (k, i) :: l =>
    match Cell.tryExpungeLocked (hget h i) with
    | (true, c) => expungeCopy (hset h i c) l
    | (false, c) =>
      let rest := expungeCopy (hset h i c) l
      ((k, i) :: rest.1, rest.2)

/-- `Map.dirtyLocked`: if the dirty overlay is nil, rebuild it from the
current snapshot, expunging nil cells along the way. -/
def dirtyLocked (s : MapState K V) : MapState K V :=
  match s.dirty with
  | some _ => s
  | none =>
    let r := expungeCopy s.heap (loadRO s).1
    { s with dirty := some r.1, heap := r.2 }

/-- The common new-key prologue of the locked slow paths: if the snapshot is
not amended, materialize the dirty overlay and republish the same entries
with `amended = true`. -/
def amendLocked (s : MapState K V) : MapState K V :=
  if (loadRO s).2 then s
  else
    let sd := dirtyLocked s
    { sd with read := some ((loadRO s).1, true) }

/-- `Map.Load`. -/
def mapLoad (s : MapState K V) (k : K) : Option V × MapState K V :=
  match alookup (loadRO s).1 k with
  | some i => (Cell.load (hget s.heap i), s)
  | none =>
    if (loadRO s).2 then
      match alookup (loadRO s).1 k with
      | some i => (Cell.load (hget s.heap i), s)
      | none =>
        match alookup (dirtyL s) k with
        | some i =>
          let s1 := missLocked s
          (Cell.load (hget s1.heap i), s1)
        | none => (none, missLocked s)
    else (none, s)

/-- The locked slow path of `Map.Swap`. -/
def mapSwapSlow (s : MapState K V) (k : K) (v : V) : Option V × MapState K V :=
  match alookup (loadRO s).1 k with
  | some i =>
    let r1 := Cell.unexpungeLocked (hget s.heap i)
    let s1 : MapState K V := { s with heap := hset s.heap i r1.2 }
    let s2 : MapState K V :=
      if r1.1 then { s1 with dirty := some (ainsert (dirtyL s1) k i) } else s1
    let r2 := Cell.swapLocked (hget s2.heap i) v
    (r2.1, { s2 with heap := hset s2.heap i r2.2 })
  | none =>
    match alookup (dirtyL s) k with
    | some i =>
      let r2 := Cell.swapLocked (hget s.heap i) v
      (r2.1, { s with heap := hset s.heap i r2.2 })
    | none =>
      let s1 := amendLocked s
      (none, { s1 with dirty := some (ainsert (dirtyL s1) k s1.heap.length),
                       heap := s1.heap ++ [Cell.live v] })

/-- `Map.Swap`. -/
def mapSwap (s : MapState K V) (k : K) (v : V) : Option V × MapState K V :=
  match alookup (loadRO s).1 k with
  | some i =>
    match Cell.trySwap (hget s.heap i) v with
    | (some prev, c) => (prev, { s with heap := hset s.heap i c })
    | (none, _) => mapSwapSlow s k v
  | none => mapSwapSlow s k v

/-- `Map.Store`, which is `Swap` with the result discarded. -/
def mapStore (s : MapState K V) (k : K) (v : V) : MapState K V :=
  (mapSwap s k v).2

/-- The locked slow path of `Map.LoadOrStore`. -/
def mapLoadOrStoreSlow (s : MapState K V) (k : K) (v : V) :
    (V × Bool) × MapState K V :=
  match alookup (loadRO s).1 k with
  | some i =>
    let r1 := Cell.unexpungeLocked (hget s.heap i)
    let s1 : MapState K V := { s with heap := hset s.heap i r1.2 }
    let s2 : MapState K V :=
      if r1.1 then { s1 with dirty := some (ainsert (dirtyL s1) k i) } else s1
    let r2 := Cell.tryLoadOrStore (hget s2.heap i) v
    (r2.1.getD (default, false), { s2 with heap := hset s2.heap i r2.2 })
  | none =>
    match alookup (dirtyL s) k with
    | some i =>
      let r2 := Cell.tryLoadOrStore (hget s.heap i) v
      (r2.1.getD (default, false), missLocked { s with heap := hset s.heap i r2.2 })
    | none =>
      let s1 := amendLocked s
      ((v, false), { s1 with dirty := some (ainsert (dirtyL s1) k s1.heap.length),
                             heap := s1.heap ++ [Cell.live v] })

/-- `Map.LoadOrStore`. -/
def mapLoadOrStore (s : MapState K V) (k : K) (v : V) :
    (V × Bool) × MapState K V :=
  match alookup (loadRO s).1 k with
  | some i =>
    match Cell.tryLoadOrStore (hget s.heap i) v with
    | (some r, c) => (r, { s with heap := hset s.heap i c })
    | (none, _) => mapLoadOrStoreSlow s k v
  | none => mapLoadOrStoreSlow s k v

/-- `Map.LoadAndDelete`. -/
def mapLoadAndDelete (s : MapState K V) (k : K) : Option V × MapState K V :=
  match alookup (loadRO s).1 k with
  | some i =>
    let r := Cell.del (hget s.heap i)
    (r.1, { s with heap := hset s.heap i r.2 })
  | none =>
    if (loadRO s).2 then
      match alookup (loadRO s).1 k with
      | some i =>
        let r := Cell.del (hget s.heap i)
        (r.1, { s with heap := hset s.heap i r.2 })
      | none =>
        match alookup (dirtyL s) k with
        | some i =>
          let s1 := missLocked { s with dirty := s.dirty.map (fun d => aerase d k) }
          let r := Cell.del (hget s1.heap i)
          (r.1, { s1 with heap := hset s1.heap i r.2 })
        | none =>
          (none, missLocked { s with dirty := s.dirty.map (fun d => aerase d k) })
    else (none, s)

/-- `Map.Delete`, which is `LoadAndDelete` with the result discarded. -/
def mapDelete (s : MapState K V) (k : K) : MapState K V :=
  (mapLoadAndDelete s k).2

/-- `Map.CompareAndSwap`. -/
def mapCompareAndSwap (s : MapState K V) (k : K) (old nw : V) :
    Bool × MapState K V :=
  match alookup (loadRO s).1 k with
  | some i =>
    let r := Cell.tryCompareAndSwap (hget s.heap i) old nw
    (r.1, { s with heap := hset s.heap i r.2 })
  | none =>
    if (loadRO s).2 then
      match alookup (loadRO s).1 k with
      | some i =>
        let r := Cell.tryCompareAndSwap (hget s.heap i) old nw
        (r.1, { s with heap := hset s.heap i r.2 })
      | none =>
        match alookup (dirtyL s) k with
        | some i =>
          let r := Cell.tryCompareAndSwap (hget s.heap i) old nw
          (r.1, missLocked { s with heap := hset s.heap i r.2 })
        | none => (false, s)
    else (false, s)

/-- `Map.CompareAndDelete`. -/
def mapCompareAndDelete (s : MapState K V) (k : K) (old : V) :
    Bool × MapState K V :=
  match alookup (loadRO s).1 k with
  | some i =>
    let r := Cell.compareAndDelete (hget s.heap i) old
    (r.1, { s with heap := hset s.heap i r.2 })
  | none =>
    if (loadRO s).2 then
      match alookup (loadRO s).1 k with
      | some i =>
        let r := Cell.compareAndDelete (hget s.heap i) old
        (r.1, { s with heap := hset s.heap i r.2 })
      | none =>
        match alookup (dirtyL s) k with
        | some i =>
          let s1 := missLocked s
          let r := Cell.compareAndDelete (hget s1.heap i) old
          (r.1, { s1 with heap := hset s1.heap i r.2 })
        | none => (false, missLocked s)
    else (false, s)

/-- `Map.Clear`: no-op on an empty, non-amended snapshot; otherwise publish
an empty snapshot, clear the dirty overlay in place (a nil Go map stays
nil) and reset the miss counter. -/
def mapClear (s : MapState K V) : MapState K V :=
  if (loadRO s).1.length = 0 ∧ (loadRO s).2 = false then s
  else
    let s1 : MapState K V :=
      if 0 < (loadRO s).1.length ∨ (loadRO s).2 = true then
        { s with read := some (([] : List (K × Nat)), false) }
      else s
    { s1 with dirty := s1.dirty.map (fun _ => ([] : List (K × Nat))),
              misses := 0 }

/-- The iteration loop of `Map.Range`, returning the list of (key, value)
pairs the visitor is invoked on, in order; iteration stops after the first
visit on which `f` returns `false`. -/
def rangeGo {K V : Type} (h : List (Cell V)) (f : K → V → Bool) :
    List (K × Nat) → List (K × V)
  | [] => []
  | (k, i) :: l =>
    match Cell.load (hget h i) with
    | none => rangeGo h f l
    | some v => if f k v then (k, v) :: rangeGo h f l else [(k, v)]

/-- `Map.Range`: force-promote the dirty overlay when the snapshot is
amended, then iterate the snapshot's entries, skipping absent cells. -/
def mapRange (s : MapState K V) (f : K → V → Bool) :
    List (K × V) × MapState K V :=
  let s1 : MapState K V :=
    if (loadRO s).2 then
      { s with read := some (dirtyL s, false), dirty := none, misses := 0 }
    else s
  (rangeGo s1.heap f (loadRO s1).1, s1)

/-- One operation of the map's public interface. -/
inductive Op (K V : Type) where
  | load : K → Op K V
  | store : K → V → Op K V
  | loadOrStore : K → V → Op K V
  | loadAndDelete : K → Op K V
  | del : K → Op K V
  | swap : K → V → Op K V
  | cas : K → V → V → Op K V
  | cad : K → V → Op K V
  | clear : Op K V
  deriving DecidableEq, Repr

/-- The result returned by one operation. -/
inductive OpResult (V : Type) where
  | unitRes : OpResult V
  | optRes : Option V → OpResult V
  | valLoaded : V → Bool → OpResult V
  | boolRes : Bool → OpResult V
  deriving DecidableEq, Repr

/-- Run one operation on the concurrent map state. -/
def runOp (s : MapState K V) : Op K V → OpResult V × MapState K V
  | .load k => let r := mapLoad s k; (.optRes r.1, r.2)
  | .store k v => (.unitRes, mapStore s k v)
  | .loadOrStore k v =>
    let r := mapLoadOrStore s k v
    (.valLoaded r.1.1 r.1.2, r.2)
  | .loadAndDelete k => let r := mapLoadAndDelete s k; (.optRes r.1, r.2)
  | .del k => (.unitRes, mapDelete s k)
  | .swap k v => let r := mapSwap s k v; (.optRes r.1, r.2)
  | .cas k old nw => let r := mapCompareAndSwap s k old nw; (.boolRes r.1, r.2)
  | .cad k old => let r := mapCompareAndDelete s k old; (.boolRes r.1, r.2)
  | .clear => (.unitRes, mapClear s)

/-- Run a sequence of operations, collecting the results. -/
def runOps (s : MapState K V) : List (Op K V) → List (OpResult V) × MapState K V
  | [] => ([], s)
  | op :: ops =>
    let r := runOp s op
    let rs := runOps r.2 ops
    (r.1 :: rs.1, rs.2)

/-- States reachable from a zero-value map by a sequence of operations. -/
def Reachable (s : MapState K V) : Prop :=
  ∃ ops : List (Op K V), s = (runOps (initState K V) ops).2

/-- Reference mapping: `Load`. -/
def refLoad (r : List (K × V)) (k : K) : Option V :=
  alookup r k

/-- Reference mapping: `Store`. -/
def refStore (r : List (K × V)) (k : K) (v : V) : List (K × V) :=
  ainsert r k v

/-- Reference mapping: `LoadOrStore`. -/
def refLoadOrStore (r : List (K × V)) (k : K) (v : V) :
    (V × Bool) × List (K × V) :=
  match alookup r k with
  | some w => ((w, true), r)
  | none => ((v, false), ainsert r k v)

/-- Reference mapping: `LoadAndDelete`. -/
def refLoadAndDelete (r : List (K × V)) (k : K) : Option V × List (K × V) :=
  (alookup r k, aerase r k)

/-- Reference mapping: `Swap`. -/
def refSwap (r : List (K × V)) (k : K) (v : V) : Option V × List (K × V) :=
  (alookup r k, ainsert r k v)

/-- Reference mapping: `CompareAndSwap`. -/
def refCompareAndSwap (r : List (K × V)) (k : K) (old nw : V) :
    Bool × List (K × V) :=
  match alookup r k with
  | some w => if w = old then (true, ainsert r k nw) else (false, r)
  | none => (false, r)

/-- Reference mapping: `CompareAndDelete`. -/
def refCompareAndDelete (r : List (K × V)) (k : K) (old : V) :
    Bool × List (K × V) :=
  match alookup r k with
  | some w => if w = old then (true, aerase r k) else (false, r)
  | none => (false, r)

/-- Run one operation on the plain reference mapping. -/
def refRunOp (r : List (K × V)) : Op K V → OpResult V × List (K × V)
  | .load k => (.optRes (refLoad r k), r)
  | .store k v => (.unitRes, refStore r k v)
  | .loadOrStore k v =>
    let p := refLoadOrStore r k v
    (.valLoaded p.1.1 p.1.2, p.2)
  | .loadAndDelete k => let p := refLoadAndDelete r k; (.optRes p.1, p.2)
  | .del k => (.unitRes, (refLoadAndDelete r k).2)
  | .swap k v => let p := refSwap r k v; (.optRes p.1, p.2)
  | .cas k old nw => let p := refCompareAndSwap r k old nw; (.boolRes p.1, p.2)
  | .cad k old => let p := refCompareAndDelete r k old; (.boolRes p.1, p.2)
  | .clear => (.unitRes, [])

/-- Run a sequence of operations on the reference mapping. -/
def refRunOps (r : List (K × V)) : List (Op K V) → List (OpResult V) × List (K × V)
  | [] => ([], r)
  | op :: ops =>
    let p := refRunOp r op
    let ps := refRunOps p.2 ops
    (p.1 :: ps.1, ps.2)

/-- The entry id a key resolves to: snapshot first, then dirty overlay. -/
def entryIdOf (s : MapState K V) (k : K) : Option Nat :=
  match alookup (loadRO s).1 k with
  | some i => some i
  | none => alookup (dirtyL s) k

/-- The abstract contents of the map: the value a key's entry holds, if
any. -/
def absM (s : MapState K V) (k : K) : Option V :=
  (entryIdOf s k).bind (fun i => Cell.load (hget s.heap i))

/-- Pointwise update of an abstract mapping, used to state the effect of
operations. -/
def upd {K V : Type} [DecidableEq K] (f : K → Option V) (k : K) (o : Option V) :
    K → Option V :=
  fun k' => if k' = k then o else f k'

/-- The concurrent map state and the plain reference mapping hold the same
contents. -/
def absRel (s : MapState K V) (r : List (K × V)) : Prop :=
  ∀ k, absM s k = alookup r k

/-- A miss was recorded between state `s` and state `t`: the counter was
incremented, or recording the miss triggered a promotion that cleared the
dirty overlay and reset the counter. -/
def missRecorded {K V : Type} (s t : MapState K V) : Prop :=
  t.misses = s.misses + 1 ∨ (t.dirty = none ∧ t.misses = 0)

/-- The structural invariant of reachable map states. -/
structure Inv (s : MapState K V) : Prop where
  amendedOfDirtyExtra : ∀ k i, alookup (dirtyL s) k = some i →
    alookup (loadRO s).1 k = none → (loadRO s).2 = true
  notAmendedOfNoDirty : s.dirty = none → (loadRO s).2 = false
  agree : ∀ k i j, alookup (loadRO s).1 k = some i →
    alookup (dirtyL s) k = some j → i = j
  readSub : s.dirty ≠ none → ∀ k i, alookup (loadRO s).1 k = some i →
    alookup (dirtyL s) k = some i ∨ hget s.heap i = Cell.expunged
  dirtyNotExp : ∀ k i, alookup (dirtyL s) k = some i →
    hget s.heap i ≠ Cell.expunged
  idBound : ∀ k i, alookup (loadRO s).1 k = some i ∨ alookup (dirtyL s) k = some i →
    i < s.heap.length
  idInj : ∀ k1 k2 i,
    (alookup (loadRO s).1 k1 = some i ∨ alookup (dirtyL s) k1 = some i) →
    (alookup (loadRO s).1 k2 = some i ∨ alookup (dirtyL s) k2 = some i) →
    k1 = k2
  readNodup : ((loadRO s).1.map Prod.fst).Nodup
  dirtyNodup : ((dirtyL s).map Prod.fst).Nodup
  noExpNoDirty : s.dirty = none → ∀ k i, alookup (loadRO s).1 k = some i →
    ¬ hget s.heap i = Cell.expunged

/-- A Go interface value as used by the `any(...)` comparisons in
`CompareAndSwap`/`CompareAndDelete`: either a value of a comparable dynamic
type or a value of a non-comparable dynamic type (slice, map, function). -/
inductive GoVal where
  | cmp : Nat → GoVal
  | noncmp : Nat → GoVal
  deriving DecidableEq, Repr

/-- Go interface equality `any(a) != any(b)` (negated here to plain
equality): values of different dynamic types compare unequal; comparing two
values of the same non-comparable dynamic type panics (`Except.error`). -/
def goEq : GoVal → GoVal → Except Unit Bool
  | .cmp a, .cmp b => .ok (decide (a = b))
  | .noncmp _, .noncmp _ => .error ()
  | _, _ => .ok false

/-- `entry.tryCompareAndSwap` over Go interface equality, propagating the
panic of comparing non-comparable dynamic types. -/
def tryCompareAndSwapGo (c : Cell GoVal) (old nw : GoVal) :
    Except Unit (Bool × Cell GoVal) :=
  match c with
  | .null => .ok (false, .null)
  | .expunged => .ok (false, .expunged)
  | .live v =>
    match goEq v old with
    | .error e => .error e
    | .ok b => if b then .ok (true, .live nw) else .ok (false, .live v)

/-- The comparison loop of `Map.CompareAndDelete` over Go interface
equality, propagating the panic of comparing non-comparable dynamic
types. -/
def compareAndDeleteGo (c : Cell GoVal) (old : GoVal) :
    Except Unit (Bool × Cell GoVal) :=
  match c with
  | .null => .ok (false, .null)
  | .expunged => .ok (false, .expunged)
  | .live v =>
    match goEq v old with
    | .error e => .error e
    | .ok b => if b then .ok (true, .null) else .ok (false, .live v)

/-! ### Association list lemmas -/

section AListLemmas

variable {K : Type} {A : Type} [DecidableEq K]

theorem alookup_ainsert_self (l : List (K × A)) (k : K) (v : A) :
    alookup (ainsert l k v) k = some v := by
  induction l with
  | nil => simp [ainsert, alookup]
  | cons p l ih =>
    by_cases h : k = p.1
    · simp [ainsert, alookup, h]
    · simp [ainsert, alookup, h, ih]

theorem alookup_ainsert_ne (l : List (K × A)) {k k' : K} (v : A) (h : k' ≠ k) :
    alookup (ainsert l k v) k' = alookup l k' := by
  induction l with
  | nil => simp [ainsert, alookup, h]
  | cons p l ih =>
    by_cases h1 : k = p.1
    · subst h1
      simp [ainsert, alookup, h]
    · by_cases h2 : k' = p.1
      · simp [ainsert, alookup, h1, h2]
      · simp [ainsert, alookup, h1, h2, ih]

theorem alookup_aerase_ne (l : List (K × A)) {k k' : K} (h : k' ≠ k) :
    alookup (aerase l k) k' = alookup l k' := by
  induction l with
  | nil => simp [aerase]
  | cons p l ih =>
    by_cases h1 : k = p.1
    · subst h1
      simp [aerase, alookup, h]
    · by_cases h2 : k' = p.1
      · simp [aerase, alookup, h1, h2]
      · simp [aerase, alookup, h1, h2, ih]

theorem alookup_eq_none (l : List (K × A)) (k : K) :
    alookup l k = none ↔ k ∉ l.map Prod.fst := by
  induction l with
  | nil => simp [alookup]
  | cons p l ih =>
    by_cases h : k = p.1
    · simp [alookup, h]
    · simp [alookup, h, ih]

theorem alookup_isSome (l : List (K × A)) (k : K) :
    (alookup l k).isSome ↔ k ∈ l.map Prod.fst := by
  induction l with
  | nil => simp [alookup]
  | cons p l ih =>
    by_cases h : k = p.1
    · simp [alookup, h]
    · simp [alookup, h, ih]

theorem alookup_mem {l : List (K × A)} {k : K} {v : A}
    (h : alookup l k = some v) : (k, v) ∈ l := by
  induction l with
  | nil => simp [alookup] at h
  | cons p l ih =>
    obtain ⟨a, b⟩ := p
    by_cases h1 : k = a
    · subst h1
      simp [alookup] at h
      subst h
      exact List.mem_cons_self _ _
    · simp [alookup, h1] at h
      exact List.mem_cons_of_mem _ (ih h)

theorem mem_alookup {l : List (K × A)} {k : K} {v : A}
    (hnd : (l.map Prod.fst).Nodup) (h : (k, v) ∈ l) : alookup l k = some v := by
  induction l with
  | nil => simp at h
  | cons p l ih =>
    obtain ⟨a, b⟩ := p
    rw [List.map_cons, List.nodup_cons] at hnd
    dsimp only at hnd
    rcases List.mem_cons.1 h with h1 | h1
    · have hk : k = a := congrArg Prod.fst h1
      have hv : v = b := congrArg Prod.snd h1
      subst hk; subst hv
      simp [alookup]
    · have hk : ¬ k = a := by
        intro he
        subst he
        exact hnd.1 (List.mem_map_of_mem Prod.fst h1)
      simp only [alookup, if_neg hk]
      exact ih hnd.2 h1

theorem ainsert_keys_mem {l : List (K × A)} {k k' : K} {v : A} :
    k' ∈ (ainsert l k v).map Prod.fst ↔ k' = k ∨ k' ∈ l.map Prod.fst := by
  induction l with
  | nil => simp [ainsert]
  | cons p l ih =>
    obtain ⟨a, b⟩ := p
    by_cases h : k = a
    · subst h
      simp [ainsert] <;> tauto
    · rw [show ainsert ((a, b) :: l) k v = (a, b) :: ainsert l k v by
        simp [ainsert, h]]
      simp only [List.map_cons, List.mem_cons, ih]
      tauto

theorem ainsert_keys_nodup {l : List (K × A)} (k : K) (v : A)
    (hnd : (l.map Prod.fst).Nodup) : ((ainsert l k v).map Prod.fst).Nodup := by
  induction l with
  | nil => simp [ainsert]
  | cons p l ih =>
    obtain ⟨a, b⟩ := p
    rw [List.map_cons, List.nodup_cons] at hnd
    dsimp only at hnd
    by_cases h : k = a
    · rw [show ainsert ((a, b) :: l) k v = (k, v) :: l by simp [ainsert, h]]
      rw [List.map_cons, List.nodup_cons]
      refine ⟨?_, hnd.2⟩
      rw [h]
      exact hnd.1
    · rw [show ainsert ((a, b) :: l) k v = (a, b) :: ainsert l k v by
        simp [ainsert, h]]
      rw [List.map_cons, List.nodup_cons]
      refine ⟨?_, ih hnd.2⟩
      rw [ainsert_keys_mem]
      rintro (h1 | h1)
      · exact h h1.symm
      · exact hnd.1 h1

theorem aerase_sublist (l : List (K × A)) (k : K) : (aerase l k).Sublist l := by
  induction l with
  | nil => simp [aerase]
  | cons p l ih =>
    obtain ⟨a, b⟩ := p
    by_cases h : k = a
    · rw [show aerase ((a, b) :: l) k = l by simp [aerase, h]]
      exact List.sublist_cons_self _ _
    · rw [show aerase ((a, b) :: l) k = (a, b) :: aerase l k by simp [aerase, h]]
      exact List.Sublist.cons₂ _ ih

theorem aerase_keys_nodup {l : List (K × A)} (k : K)
    (hnd : (l.map Prod.fst).Nodup) : ((aerase l k).map Prod.fst).Nodup :=
  ((aerase_sublist l k).map Prod.fst).nodup hnd

theorem alookup_aerase_self (l : List (K × A)) (k : K)
    (hnd : (l.map Prod.fst).Nodup) : alookup (aerase l k) k = none := by
  induction l with
  | nil => simp [aerase, alookup]
  | cons p l ih =>
    obtain ⟨a, b⟩ := p
    rw [List.map_cons, List.nodup_cons] at hnd
    dsimp only at hnd
    by_cases h : k = a
    · rw [show aerase ((a, b) :: l) k = l by simp [aerase, h]]
      rw [alookup_eq_none, h]
      exact hnd.1
    · rw [show aerase ((a, b) :: l) k = (a, b) :: aerase l k by simp [aerase, h]]
      rw [show alookup ((a, b) :: aerase l k) k = alookup (aerase l k) k by
        simp [alookup, h]]
      exact ih hnd.2

theorem alookup_filter_none {l : List (K × A)} (p : K × A → Bool) {k : K}
    (h : alookup l k = none) : alookup (l.filter p) k = none := by
  rw [alookup_eq_none] at h ⊢
  intro hm
  exact h (List.map_subset Prod.fst (List.Sublist.subset (List.filter_sublist _)) hm)

theorem alookup_filter_some {l : List (K × A)} {p : K × A → Bool} {k : K} {v : A}
    (hnd : (l.map Prod.fst).Nodup) (h : alookup l k = some v) :
    alookup (l.filter p) k = if p (k, v) then some v else none := by
  induction l with
  | nil => simp [alookup] at h
  | cons q l ih =>
    obtain ⟨a, b⟩ := q
    rw [List.map_cons, List.nodup_cons] at hnd
    dsimp only at hnd
    by_cases hk : k = a
    · subst hk
      rw [show alookup ((k, b) :: l) k = some b by simp [alookup]] at h
      injection h with h
      subst h
      by_cases hp : p (k, b)
      · rw [List.filter_cons, if_pos (by simpa using hp), if_pos hp]
        simp [alookup]
      · rw [List.filter_cons, if_neg (by simpa using hp), if_neg hp]
        exact alookup_filter_none p ((alookup_eq_none _ _).2 hnd.1)
    · rw [show alookup ((a, b) :: l) k = alookup l k by simp [alookup, hk]] at h
      by_cases hp : p (a, b)
      · rw [List.filter_cons, if_pos (by simpa using hp)]
        rw [show alookup ((a, b) :: List.filter p l) k = alookup (List.filter p l) k by
          simp [alookup, hk]]
        exact ih hnd.2 h
      · rw [List.filter_cons, if_neg (by simpa using hp)]
        exact ih hnd.2 h

theorem filter_keys_nodup {l : List (K × A)} (p : K × A → Bool)
    (hnd : (l.map Prod.fst).Nodup) : ((l.filter p).map Prod.fst).Nodup :=
  (List.Sublist.map Prod.fst (List.filter_sublist _)).nodup hnd

theorem ids_nodup {l : List (K × Nat)} (hnd : (l.map Prod.fst).Nodup)
    (hinj : ∀ k1 k2 i, alookup l k1 = some i → alookup l k2 = some i → k1 = k2) :
    (l.map Prod.snd).Nodup := by
  induction l with
  | nil => simp
  | cons p l ih =>
    obtain ⟨a, b⟩ := p
    rw [List.map_cons, List.nodup_cons] at hnd
    rw [List.map_cons, List.nodup_cons]
    dsimp only at hnd ⊢
    constructor
    · intro hm
      rcases List.mem_map.1 hm with ⟨q, hq, hqb⟩
      have hk2 : ¬ q.1 = a := by
        intro he
        rw [← he] at hnd
        exact hnd.1 (List.mem_map_of_mem Prod.fst hq)
      have h1 : alookup ((a, b) :: l) a = some b := by simp [alookup]
      have h2 : alookup ((a, b) :: l) q.1 = some b := by
        rw [show alookup ((a, b) :: l) q.1 = alookup l q.1 by simp [alookup, hk2]]
        rw [← hqb]
        exact mem_alookup hnd.2 hq
      exact hk2 (hinj q.1 a b h2 h1)
    · refine ih hnd.2 ?_
      intro k1 k2 i h1 h2
      have hk1 : ¬ k1 = a := by
        intro hk
        subst hk
        rw [(alookup_eq_none _ _).2 hnd.1] at h1
        exact Option.noConfusion h1
      have hk2 : ¬ k2 = a := by
        intro hk
        subst hk
        rw [(alookup_eq_none _ _).2 hnd.1] at h2
        exact Option.noConfusion h2
      refine hinj k1 k2 i ?_ ?_
      · rw [show alookup ((a, b) :: l) k1 = alookup l k1 by simp [alookup, hk1]]
        exact h1
      · rw [show alookup ((a, b) :: l) k2 = alookup l k2 by simp [alookup, hk2]]
        exact h2

theorem alookup_id_mem {l : List (K × Nat)} {k : K} {i : Nat}
    (h : alookup l k = some i) : i ∈ l.map Prod.snd := by
  simpa using List.mem_map_of_mem Prod.snd (alookup_mem h)

end AListLemmas

/-! ### Heap lemmas -/

theorem hset_length {V : Type} (h : List (Cell V)) (i : Nat) (c : Cell V) :
    (hset h i c).length = h.length := by
  simp [hset]

theorem hget_hset_self {V : Type} {h : List (Cell V)} {i : Nat} (c : Cell V)
    (hi : i < h.length) : hget (hset h i c) i = c := by
  simp [hget, hset, List.getD, List.getElem?_set_self hi]

theorem hget_hset_ne {V : Type} (h : List (Cell V)) {i j : Nat} (c : Cell V)
    (hij : j ≠ i) : hget (hset h i c) j = hget h j := by
  simp [hget, hset, List.getD, List.getElem?_set_ne (Ne.symm hij)]

theorem hget_append_left {V : Type} {h : List (Cell V)} (h2 : List (Cell V))
    {i : Nat} (hi : i < h.length) : hget (h ++ h2) i = hget h i := by
  simp [hget, List.getD, List.getElem?_append_left hi]

theorem hget_append_self {V : Type} (h : List (Cell V)) (c : Cell V) :
    hget (h ++ [c]) h.length = c := by
  simp [hget, List.getD]

theorem hset_hset {V : Type} (h : List (Cell V)) (i : Nat) (a b : Cell V) :
    hset (hset h i a) i b = hset h i b := by
  simp [hset, List.set_set]

/-! ### Cell facts and state congruence -/

theorem expungeStep_idem (c : Cell V) :
    Cell.expungeStep (Cell.expungeStep c) = Cell.expungeStep c := by
  cases c <;> rfl

theorem load_expungeStep (c : Cell V) :
    Cell.load (Cell.expungeStep c) = Cell.load c := by
  cases c <;> rfl

theorem isLive_load (c : Cell V) : c.isLive = (c.load).isSome := by
  cases c <;> rfl

theorem expungeStep_eq_expunged (c : Cell V) (h : c.isLive = false) :
    Cell.expungeStep c = Cell.expunged := by
  cases c <;> first | rfl | exact Bool.noConfusion h

theorem expungeStep_of_isLive (c : Cell V) (h : c.isLive = true) :
    Cell.expungeStep c = c := by
  cases c <;> first | rfl | exact Bool.noConfusion h

theorem absM_def (s : MapState K V) (k : K) :
    absM s k =
      match alookup (loadRO s).1 k with
      | some i => Cell.load (hget s.heap i)
      | none => (alookup (dirtyL s) k).bind (fun i => Cell.load (hget s.heap i)) := by
  unfold absM entryIdOf
  cases alookup (loadRO s).1 k <;> simp

theorem absM_congr {s t : MapState K V} (hr : t.read = s.read)
    (hd : t.dirty = s.dirty) (hh : ∀ j, hget t.heap j = hget s.heap j) (k : K) :
    absM t k = absM s k := by
  rw [absM_def, absM_def]
  unfold loadRO dirtyL
  rw [hr, hd]
  rcases alookup (s.read.getD ([], false)).1 k with _ | i
  · rcases alookup (s.dirty.getD []) k with _ | i <;> simp [hh]
  · simp [hh]

theorem Inv.congr {s t : MapState K V} (h : Inv s) (hr : t.read = s.read)
    (hd : t.dirty = s.dirty) (hh : ∀ j, hget t.heap j = hget s.heap j)
    (hl : t.heap.length = s.heap.length) : Inv t := by
  have hro : loadRO t = loadRO s := by unfold loadRO; rw [hr]
  have hdl : dirtyL t = dirtyL s := by unfold dirtyL; rw [hd]
  refine ⟨?_, ?_, ?_, ?_, ?_, ?_, ?_, ?_, ?_, ?_⟩
  · rw [hro, hdl]; exact h.amendedOfDirtyExtra
  · rw [hd, hro]; exact h.notAmendedOfNoDirty
  · rw [hro, hdl]; exact h.agree
  · rw [hd, hro, hdl]; simp only [hh]; exact h.readSub
  · rw [hdl]; simp only [hh]; exact h.dirtyNotExp
  · rw [hro, hdl, hl]; exact h.idBound
  · rw [hro, hdl]; exact h.idInj
  · rw [hro]; exact h.readNodup
  · rw [hdl]; exact h.dirtyNodup
  · rw [hd, hro]
    simp only [hh]
    exact h.noExpNoDirty

/-! ### missLocked -/

theorem missLocked_heap (s : MapState K V) : (missLocked s).heap = s.heap := by
  unfold missLocked
  dsimp only
  split <;> rfl

theorem promote_spec (s : MapState K V) (h : Inv s) (ha : (loadRO s).2 = true) :
    Inv { s with read := some (dirtyL s, false), dirty := none, misses := 0 } ∧
    ∀ k, absM { s with read := some (dirtyL s, false), dirty := none, misses := 0 } k
      = absM s k := by
  set t : MapState K V :=
      { s with read := some (dirtyL s, false), dirty := none, misses := 0 } with ht
  have htro : loadRO t = (dirtyL s, false) := rfl
  have htdl : dirtyL t = [] := rfl
  constructor
  · refine ⟨?_, ?_, ?_, ?_, ?_, ?_, ?_, ?_, ?_, ?_⟩
    · intro k i h1
      rw [htdl] at h1
      simp [alookup] at h1
    · intro _; rfl
    · intro k i j _ h2
      rw [htdl] at h2
      simp [alookup] at h2
    · intro hd
      exact absurd rfl hd
    · intro k i h1
      rw [htdl] at h1
      simp [alookup] at h1
    · intro k i h1
      rcases h1 with h1 | h1
      · rw [htro] at h1
        exact h.idBound k i (Or.inr h1)
      · rw [htdl] at h1
        simp [alookup] at h1
    · intro k1 k2 i h1 h2
      rw [htro, htdl] at h1 h2
      rcases h1 with h1 | h1
      · rcases h2 with h2 | h2
        · exact h.idInj k1 k2 i (Or.inr h1) (Or.inr h2)
        · simp [alookup] at h2
      · simp [alookup] at h1
    · rw [htro]
      exact h.dirtyNodup
    · rw [htdl]
      simp
    · intro _ k i h1
      rw [htro] at h1
      exact h.dirtyNotExp k i h1
  · intro k
    have hdn : s.dirty ≠ none := by
      intro hd
      rw [h.notAmendedOfNoDirty hd] at ha
      exact Bool.noConfusion ha
    have ht1 : absM t k = (alookup (dirtyL s) k).bind
        (fun i => Cell.load (hget s.heap i)) := by
      rw [absM_def, htro, htdl]
      rcases alookup (dirtyL s) k with _ | i
      · simp [alookup]
      · simp
    rw [ht1, absM_def]
    rcases hr : alookup (loadRO s).1 k with _ | i
    · rfl
    · rcases h.readSub hdn k i hr with hd | hd
      · rw [hd]
        rfl
      · rcases hdk : alookup (dirtyL s) k with _ | j
        · simp [hd, Cell.load]
        · have hij : i = j := h.agree k i j hr hdk
          subst hij
          exact absurd hd (h.dirtyNotExp k i hdk)

theorem missLocked_spec (s : MapState K V) (h : Inv s) (ha : (loadRO s).2 = true) :
    Inv (missLocked s) ∧ ∀ k, absM (missLocked s) k = absM s k := by
  unfold missLocked
  dsimp only
  split
  · exact ⟨h.congr rfl rfl (fun _ => rfl) rfl,
      fun k => absM_congr rfl rfl (fun _ => rfl) k⟩
  · exact promote_spec s h ha

/-! ### expungeCopy and dirtyLocked -/

theorem expungeCopy_cons (h : List (Cell V)) (k : K) (i : Nat) (l : List (K × Nat)) :
    expungeCopy h ((k, i) :: l) =
      if (hget h i).isLive then
        ((k, i) :: (expungeCopy (hset h i (Cell.expungeStep (hget h i))) l).1,
         (expungeCopy (hset h i (Cell.expungeStep (hget h i))) l).2)
      else expungeCopy (hset h i (Cell.expungeStep (hget h i))) l := by
  cases hc : hget h i <;>
    simp [expungeCopy, hc, Cell.tryExpungeLocked, Cell.isLive, Cell.expungeStep]

theorem expungeCopy_length (h : List (Cell V)) (l : List (K × Nat)) :
    (expungeCopy h l).2.length = h.length := by
  induction l generalizing h with
  | nil => rfl
  | cons p l ih =>
    obtain ⟨k, i⟩ := p
    rw [expungeCopy_cons]
    by_cases hl : (hget h i).isLive
    · rw [if_pos hl]
      dsimp only
      rw [ih]
      exact hset_length _ _ _
    · rw [if_neg hl]
      rw [ih]
      exact hset_length _ _ _

theorem expungeCopy_heap {h : List (Cell V)} {l : List (K × Nat)}
    (hb : ∀ p ∈ l, p.2 < h.length) (j : Nat) :
    hget (expungeCopy h l).2 j =
      if j ∈ l.map Prod.snd then Cell.expungeStep (hget h j) else hget h j := by
  induction l generalizing h with
  | nil => simp [expungeCopy]
  | cons p l ih =>
    obtain ⟨k, i⟩ := p
    have hb0 : i < h.length := hb (k, i) (List.mem_cons_self _ _)
    have hb1 : ∀ q ∈ l, q.2 < (hset h i (Cell.expungeStep (hget h i))).length := by
      intro q hq
      rw [hset_length]
      exact hb q (List.mem_cons_of_mem _ hq)
    have hmain : hget (expungeCopy (hset h i (Cell.expungeStep (hget h i))) l).2 j =
        if j ∈ ((k, i) :: l).map Prod.snd then Cell.expungeStep (hget h j)
        else hget h j := by
      rw [ih hb1]
      by_cases hj : j = i
      · subst hj
        rw [hget_hset_self _ hb0]
        have hmem : j ∈ ((k, j) :: l).map Prod.snd := by simp
        rw [if_pos hmem]
        by_cases hjl : j ∈ l.map Prod.snd
        · rw [if_pos hjl, expungeStep_idem]
        · rw [if_neg hjl]
      · rw [hget_hset_ne _ _ hj]
        have hiff : (j ∈ ((k, i) :: l).map Prod.snd) ↔ j ∈ l.map Prod.snd := by
          simp [hj]
        by_cases hjl : j ∈ l.map Prod.snd
        · rw [if_pos hjl, if_pos (hiff.2 hjl)]
        · rw [if_neg hjl, if_neg (fun hm => hjl (hiff.1 hm))]
    rw [expungeCopy_cons]
    by_cases hl : (hget h i).isLive
    · rw [if_pos hl]
      exact hmain
    · rw [if_neg hl]
      exact hmain

theorem expungeCopy_dirty {h : List (Cell V)} {l : List (K × Nat)}
    (hb : ∀ p ∈ l, p.2 < h.length) (hnd : (l.map Prod.snd).Nodup) :
    (expungeCopy h l).1 = l.filter (fun p => (hget h p.2).isLive) := by
  induction l generalizing h with
  | nil => simp [expungeCopy]
  | cons p l ih =>
    obtain ⟨k, i⟩ := p
    rw [List.map_cons, List.nodup_cons] at hnd
    dsimp only at hnd
    have hb0 : i < h.length := hb (k, i) (List.mem_cons_self _ _)
    have hb1 : ∀ q ∈ l, q.2 < (hset h i (Cell.expungeStep (hget h i))).length := by
      intro q hq
      rw [hset_length]
      exact hb q (List.mem_cons_of_mem _ hq)
    have hfil : l.filter (fun q => (hget (hset h i (Cell.expungeStep (hget h i))) q.2).isLive)
        = l.filter (fun q => (hget h q.2).isLive) := by
      apply List.filter_congr
      intro q hq
      have hqi : q.2 ≠ i := by
        intro he
        refine hnd.1 ?_
        rw [← he]
        exact List.mem_map_of_mem Prod.snd hq
      rw [hget_hset_ne _ _ hqi]
    rw [expungeCopy_cons]
    by_cases hl : (hget h i).isLive
    · rw [if_pos hl]
      dsimp only
      rw [ih hb1 hnd.2, hfil, List.filter_cons, if_pos (by simpa using hl)]
    · rw [if_neg hl]
      rw [ih hb1 hnd.2, hfil, List.filter_cons, if_neg (by simpa using hl)]

/-! ### entryIdOf helpers -/

theorem entryIdOf_mem {s : MapState K V} {k : K} {i : Nat}
    (h : entryIdOf s k = some i) :
    alookup (loadRO s).1 k = some i ∨ alookup (dirtyL s) k = some i := by
  unfold entryIdOf at h
  rcases hr : alookup (loadRO s).1 k with _ | j
  · rw [hr] at h
    exact Or.inr h
  · rw [hr] at h
    dsimp only at h
    rw [← h]
    exact Or.inl rfl

theorem entryIdOf_read {s : MapState K V} {k : K} {i : Nat}
    (h : alookup (loadRO s).1 k = some i) : entryIdOf s k = some i := by
  unfold entryIdOf
  rw [h]

theorem entryIdOf_dirty {s : MapState K V} {k : K} {i : Nat}
    (hr : alookup (loadRO s).1 k = none) (h : alookup (dirtyL s) k = some i) :
    entryIdOf s k = some i := by
  unfold entryIdOf
  rw [hr]
  exact h

theorem alookup_filter_elim {K A : Type} [DecidableEq K] {l : List (K × A)}
    {p : K × A → Bool} {k : K} {v : A} (hnd : (l.map Prod.fst).Nodup)
    (h : alookup (l.filter p) k = some v) :
    alookup l k = some v ∧ p (k, v) = true := by
  rcases hl : alookup l k with _ | w
  · rw [alookup_filter_none p hl] at h
    exact Option.noConfusion h
  · rw [alookup_filter_some hnd hl] at h
    by_cases hp : p (k, w)
    · rw [if_pos hp] at h
      obtain rfl := Option.some.inj h
      exact ⟨rfl, hp⟩
    · rw [if_neg hp] at h
      exact Option.noConfusion h

/-! ### Heap cell updates -/

theorem absM_hsetUnref {s : MapState K V} {i : Nat} (c : Cell V)
    (hun : ∀ k, ¬ alookup (loadRO s).1 k = some i ∧ ¬ alookup (dirtyL s) k = some i)
    (k : K) :
    absM { s with heap := hset s.heap i c } k = absM s k := by
  rw [absM_def, absM_def]
  show (match alookup (loadRO s).1 k with
    | some j => Cell.load (hget (hset s.heap i c) j)
    | none => (alookup (dirtyL s) k).bind (fun j => Cell.load (hget (hset s.heap i c) j))) = _
  rcases hr : alookup (loadRO s).1 k with _ | j
  · rcases hd : alookup (dirtyL s) k with _ | j
    · rfl
    · have hji : j ≠ i := by
        intro he
        exact (hun k).2 (he ▸ hd)
      simp [hget_hset_ne _ _ hji]
  · have hji : j ≠ i := by
      intro he
      exact (hun k).1 (he ▸ hr)
    simp [hget_hset_ne _ _ hji]

theorem inv_hsetUnref {s : MapState K V} (h : Inv s) {i : Nat} (c : Cell V)
    (hun : ∀ k, ¬ alookup (loadRO s).1 k = some i ∧ ¬ alookup (dirtyL s) k = some i) :
    Inv { s with heap := hset s.heap i c } := by
  have hro : loadRO { s with heap := hset s.heap i c } = loadRO s := rfl
  have hdl : dirtyL { s with heap := hset s.heap i c } = dirtyL s := rfl
  refine ⟨?_, ?_, ?_, ?_, ?_, ?_, ?_, ?_, ?_, ?_⟩
  · rw [hro, hdl]; exact h.amendedOfDirtyExtra
  · rw [hro]; exact h.notAmendedOfNoDirty
  · rw [hro, hdl]; exact h.agree
  · rw [hro, hdl]
    intro hd k j hr
    have hji : j ≠ i := fun he => (hun k).1 (he ▸ hr)
    rw [show hget (hset s.heap i c) j = hget s.heap j from hget_hset_ne _ _ hji]
    exact h.readSub hd k j hr
  · rw [hdl]
    intro k j hd
    have hji : j ≠ i := fun he => (hun k).2 (he ▸ hd)
    rw [show hget (hset s.heap i c) j = hget s.heap j from hget_hset_ne _ _ hji]
    exact h.dirtyNotExp k j hd
  · rw [hro, hdl]
    show ∀ k j, _ → j < (hset s.heap i c).length
    rw [hset_length]
    exact h.idBound
  · rw [hro, hdl]; exact h.idInj
  · rw [hro]; exact h.readNodup
  · rw [hdl]; exact h.dirtyNodup
  · rw [hro]
    intro hd k j hr
    have hji : j ≠ i := fun he => (hun k).1 (he ▸ hr)
    rw [show hget (hset s.heap i c) j = hget s.heap j from hget_hset_ne _ _ hji]
    exact h.noExpNoDirty hd k j hr

theorem absM_hsetRef {s : MapState K V} (h : Inv s) {k0 : K} {i : Nat} (c : Cell V)
    (hi : entryIdOf s k0 = some i) (k : K) :
    absM { s with heap := hset s.heap i c } k = upd (absM s) k0 (Cell.load c) k := by
  have hlen : i < s.heap.length := h.idBound k0 i (entryIdOf_mem hi)
  rw [absM_def]
  show (match alookup (loadRO s).1 k with
    | some j => Cell.load (hget (hset s.heap i c) j)
    | none => (alookup (dirtyL s) k).bind (fun j => Cell.load (hget (hset s.heap i c) j))) = _
  unfold upd
  by_cases hk : k = k0
  · subst hk
    rw [if_pos rfl]
    unfold entryIdOf at hi
    rcases hr : alookup (loadRO s).1 k with _ | j
    · rw [hr] at hi
      dsimp only at hi
      dsimp only
      rw [hi]
      simp [hget_hset_self _ hlen]
    · rw [hr] at hi
      dsimp only at hi
      obtain rfl := Option.some.inj hi
      dsimp only
      simp [hget_hset_self _ hlen]
  · rw [if_neg hk, absM_def]
    rcases hr : alookup (loadRO s).1 k with _ | j
    · rcases hd : alookup (dirtyL s) k with _ | j
      · rfl
      · have hji : j ≠ i := by
          intro he
          subst he
          exact hk (h.idInj k k0 j (Or.inr hd) (entryIdOf_mem hi))
        simp [hget_hset_ne _ _ hji]
    · have hji : j ≠ i := by
        intro he
        subst he
        exact hk (h.idInj k k0 j (Or.inl hr) (entryIdOf_mem hi))
      simp [hget_hset_ne _ _ hji]

theorem inv_hsetRef {s : MapState K V} (h : Inv s) {k0 : K} {i : Nat} {c : Cell V}
    (hc : ¬ c = Cell.expunged)
    (hdir : alookup (dirtyL s) k0 = some i ∨ s.dirty = none)
    (href : alookup (loadRO s).1 k0 = some i ∨ alookup (dirtyL s) k0 = some i) :
    Inv { s with heap := hset s.heap i c } := by
  have hro : loadRO { s with heap := hset s.heap i c } = loadRO s := rfl
  have hdl : dirtyL { s with heap := hset s.heap i c } = dirtyL s := rfl
  have hlen : i < s.heap.length := h.idBound k0 i href
  refine ⟨?_, ?_, ?_, ?_, ?_, ?_, ?_, ?_, ?_, ?_⟩
  · rw [hro, hdl]; exact h.amendedOfDirtyExtra
  · rw [hro]; exact h.notAmendedOfNoDirty
  · rw [hro, hdl]; exact h.agree
  · rw [hro, hdl]
    intro hd k j hr
    by_cases hji : j = i
    · subst hji
      rcases hdir with hdir | hdir
      · have hk : k = k0 := h.idInj k k0 j (Or.inl hr) (Or.inr hdir)
        subst hk
        exact Or.inl hdir
      · exact absurd hdir hd
    · rw [show hget (hset s.heap i c) j = hget s.heap j from hget_hset_ne _ _ hji]
      exact h.readSub hd k j hr
  · rw [hdl]
    intro k j hd
    by_cases hji : j = i
    · subst hji
      rw [hget_hset_self _ hlen]
      exact hc
    · rw [show hget (hset s.heap i c) j = hget s.heap j from hget_hset_ne _ _ hji]
      exact h.dirtyNotExp k j hd
  · rw [hro, hdl]
    show ∀ k j, _ → j < (hset s.heap i c).length
    rw [hset_length]
    exact h.idBound
  · rw [hro, hdl]; exact h.idInj
  · rw [hro]; exact h.readNodup
  · rw [hdl]; exact h.dirtyNodup
  · rw [hro]
    intro hd k j hr
    by_cases hji : j = i
    · subst hji
      rw [hget_hset_self _ hlen]
      exact hc
    · rw [show hget (hset s.heap i c) j = hget s.heap j from hget_hset_ne _ _ hji]
      exact h.noExpNoDirty hd k j hr

/-! ### dirtyLocked and amendLocked -/

theorem read_ids_bound (s : MapState K V) (h : Inv s) :
    ∀ p ∈ (loadRO s).1, p.2 < s.heap.length := by
  intro p hp
  exact h.idBound p.1 p.2 (Or.inl (mem_alookup h.readNodup hp))

theorem read_ids_nodup (s : MapState K V) (h : Inv s) :
    ((loadRO s).1.map Prod.snd).Nodup :=
  ids_nodup h.readNodup (fun k1 k2 i h1 h2 => h.idInj k1 k2 i (Or.inl h1) (Or.inl h2))

theorem isLive_ne_expunged (c : Cell V) (h : c.isLive = true) :
    ¬ c = Cell.expunged := by
  cases c <;> simp [Cell.isLive] at h ⊢

theorem dirtyLocked_some (s : MapState K V) {d : List (K × Nat)}
    (hd : s.dirty = some d) : dirtyLocked s = s := by
  unfold dirtyLocked
  rw [hd]

theorem dirtyLocked_none_spec (s : MapState K V) (h : Inv s) (hd : s.dirty = none) :
    (dirtyLocked s).read = s.read ∧
    (dirtyLocked s).misses = s.misses ∧
    (dirtyLocked s).dirty = some ((loadRO s).1.filter (fun p => (hget s.heap p.2).isLive)) ∧
    (dirtyLocked s).heap.length = s.heap.length ∧
    (∀ j, hget (dirtyLocked s).heap j =
      if j ∈ (loadRO s).1.map Prod.snd then Cell.expungeStep (hget s.heap j)
      else hget s.heap j) := by
  unfold dirtyLocked
  rw [hd]
  dsimp only
  refine ⟨rfl, rfl, ?_, ?_, ?_⟩
  · rw [expungeCopy_dirty (read_ids_bound s h) (read_ids_nodup s h)]
  · exact expungeCopy_length _ _
  · intro j
    exact expungeCopy_heap (read_ids_bound s h) j

theorem amendLocked_spec (s : MapState K V) (h : Inv s) :
    Inv (amendLocked s) ∧
    (∀ k, absM (amendLocked s) k = absM s k) ∧
    (loadRO (amendLocked s)).1 = (loadRO s).1 ∧
    (loadRO (amendLocked s)).2 = true ∧
    ¬ (amendLocked s).dirty = none ∧
    (amendLocked s).heap.length = s.heap.length ∧
    (∀ k, alookup (loadRO s).1 k = none → alookup (dirtyL s) k = none →
      alookup (dirtyL (amendLocked s)) k = none) := by
  unfold amendLocked
  by_cases ha : (loadRO s).2 = true
  · rw [if_pos ha]
    refine ⟨h, fun k => rfl, rfl, ha, ?_, rfl, fun k _ hd => hd⟩
    intro hdn
    rw [h.notAmendedOfNoDirty hdn] at ha
    exact Bool.noConfusion ha
  · rw [if_neg ha]
    dsimp only
    rcases hsd : s.dirty with _ | d
    · -- the dirty overlay is nil and gets materialized
      obtain ⟨hr1, hm1, hd1, hl1, hh1⟩ := dirtyLocked_none_spec s h hsd
      set F : List (K × Nat) :=
        (loadRO s).1.filter (fun p => (hget s.heap p.2).isLive) with hF
      set t : MapState K V :=
        { dirtyLocked s with read := some ((loadRO s).1, true) } with htt
      have htro : loadRO t = ((loadRO s).1, true) := rfl
      have htdl : dirtyL t = F := by
        show (dirtyLocked s).dirty.getD [] = F
        rw [hd1]
        rfl
      have htheap : ∀ j, hget t.heap j =
          if j ∈ (loadRO s).1.map Prod.snd then Cell.expungeStep (hget s.heap j)
          else hget s.heap j := hh1
      have hFelim : ∀ {k i}, alookup F k = some i →
          alookup (loadRO s).1 k = some i ∧ (hget s.heap i).isLive = true := by
        intro k i hf
        exact alookup_filter_elim h.readNodup hf
      have hFintro : ∀ {k i}, alookup (loadRO s).1 k = some i →
          (hget s.heap i).isLive = true → alookup F k = some i := by
        intro k i hr hl
        rw [hF, alookup_filter_some h.readNodup hr]
        simp [hl]
      have hFnone : ∀ {k}, alookup (loadRO s).1 k = none → alookup F k = none := by
        intro k hr
        exact alookup_filter_none _ hr
      refine ⟨⟨fun _ _ _ _ => rfl, ?_, ?_, ?_, ?_, ?_, ?_, ?_, ?_, ?_⟩, ?_, rfl, rfl, ?_, ?_, ?_⟩
      · intro hdn
        have : (dirtyLocked s).dirty = none := hdn
        rw [hd1] at this
        exact Option.noConfusion this
      · intro k i j hri hdj
        rw [htro] at hri
        rw [htdl] at hdj
        have := (hFelim hdj).1
        rw [hri] at this
        exact Option.some.inj this
      · intro _ k i hri
        rw [htro] at hri
        rcases hlive : (hget s.heap i).isLive with _ | _
        · refine Or.inr ?_
          rw [htheap i, if_pos (alookup_id_mem hri)]
          exact expungeStep_eq_expunged _ hlive
        · refine Or.inl ?_
          rw [htdl]
          exact hFintro hri hlive
      · intro k i hdi
        rw [htdl] at hdi
        obtain ⟨hri, hlive⟩ := hFelim hdi
        rw [htheap i, if_pos (alookup_id_mem hri), expungeStep_of_isLive _ hlive]
        exact isLive_ne_expunged _ hlive
      · intro k i href
        have hlen : t.heap.length = s.heap.length := hl1
        rw [hlen]
        rcases href with h1 | h1
        · rw [htro] at h1
          exact h.idBound k i (Or.inl h1)
        · rw [htdl] at h1
          exact h.idBound k i (Or.inl (hFelim h1).1)
      · intro k1 k2 i h1 h2
        rw [htro, htdl] at h1 h2
        have g1 : alookup (loadRO s).1 k1 = some i := by
          rcases h1 with h1 | h1
          · exact h1
          · exact (hFelim h1).1
        have g2 : alookup (loadRO s).1 k2 = some i := by
          rcases h2 with h2 | h2
          · exact h2
          · exact (hFelim h2).1
        exact h.idInj k1 k2 i (Or.inl g1) (Or.inl g2)
      · exact h.readNodup
      · rw [htdl, hF]
        exact filter_keys_nodup _ h.readNodup
      · intro hdn
        have hcon : (dirtyLocked s).dirty = none := hdn
        rw [hd1] at hcon
        exact Option.noConfusion hcon
      · intro k
        rw [absM_def, absM_def, htro, htdl]
        dsimp only
        rcases hr : alookup (loadRO s).1 k with _ | i
        · dsimp only
          rw [hFnone hr]
          have : dirtyL s = [] := by rw [dirtyL, hsd]; rfl
          rw [this]
          simp [alookup]
        · dsimp only
          rw [hh1 i, if_pos (alookup_id_mem hr), load_expungeStep]
      · intro hdn
        have : (dirtyLocked s).dirty = none := hdn
        rw [hd1] at this
        exact Option.noConfusion this
      · exact hl1
      · intro k hr _
        rw [htdl]
        exact hFnone hr
    · -- the dirty overlay already exists: dirtyLocked is a no-op
      rw [dirtyLocked_some s hsd]
      have hdn : ¬ s.dirty = none := by rw [hsd]; exact fun h' => Option.noConfusion h'
      refine ⟨⟨fun _ _ _ _ => rfl, ?_, h.agree, ?_, h.dirtyNotExp, h.idBound, h.idInj,
        h.readNodup, h.dirtyNodup, ?_⟩, fun k => rfl, rfl, rfl, ?_, rfl, fun k _ hd => hd⟩
      · intro hdn2
        exact absurd hdn2 hdn
      · intro _ k i hri
        exact h.readSub hdn k i hri
      · intro hdn2
        exact absurd hdn2 hdn
      · intro hdn2
        exact hdn hdn2

/-! ### Inserting a brand-new key / erasing a dirty key -/

theorem insertFresh_spec (s : MapState K V) (h : Inv s) (k0 : K) (v : V)
    (ha : (loadRO s).2 = true)
    (hr : alookup (loadRO s).1 k0 = none) (hd : alookup (dirtyL s) k0 = none) :
    Inv { s with
          dirty := some (ainsert (dirtyL s) k0 s.heap.length),
          heap := s.heap ++ [Cell.live v] } ∧
    ∀ k, absM { s with
          dirty := some (ainsert (dirtyL s) k0 s.heap.length),
          heap := s.heap ++ [Cell.live v] } k = upd (absM s) k0 (some v) k := by
  have hdn : ¬ s.dirty = none := by
    intro hdm
    rw [h.notAmendedOfNoDirty hdm] at ha
    exact Bool.noConfusion ha
  set t : MapState K V := { s with
          dirty := some (ainsert (dirtyL s) k0 s.heap.length),
          heap := s.heap ++ [Cell.live v] } with htt
  have htro : loadRO t = loadRO s := rfl
  have hcell : ∀ j, j < s.heap.length → hget t.heap j = hget s.heap j := by
    intro j hj
    exact hget_append_left _ hj
  have hcelln : hget t.heap s.heap.length = Cell.live v := hget_append_self _ _
  have hlen : t.heap.length = s.heap.length + 1 := by
    show (s.heap ++ [Cell.live v]).length = s.heap.length + 1
    simp
  have hdlook : ∀ k, alookup (dirtyL t) k =
      if k = k0 then some s.heap.length else alookup (dirtyL s) k := by
    intro k
    show alookup (ainsert (dirtyL s) k0 s.heap.length) k = _
    by_cases hk : k = k0
    · subst hk
      rw [if_pos rfl]
      exact alookup_ainsert_self _ _ _
    · rw [if_neg hk]
      exact alookup_ainsert_ne _ _ hk
  constructor
  · refine ⟨fun _ _ _ _ => ha, ?_, ?_, ?_, ?_, ?_, ?_, h.readNodup, ?_, ?_⟩
    · intro hdn2
      exact Option.noConfusion hdn2
    · intro k i j hri hdj
      rw [hdlook] at hdj
      by_cases hk : k = k0
      · subst hk
        rw [htro] at hri
        rw [hr] at hri
        exact Option.noConfusion hri
      · rw [if_neg hk] at hdj
        exact h.agree k i j hri hdj
    · intro _ k i hri
      rw [htro] at hri
      have hk : ¬ k = k0 := by
        intro hk
        subst hk
        rw [hr] at hri
        exact Option.noConfusion hri
      rcases h.readSub hdn k i hri with hdi | hdi
      · refine Or.inl ?_
        rw [hdlook, if_neg hk]
        exact hdi
      · refine Or.inr ?_
        rw [hcell i (h.idBound k i (Or.inl hri))]
        exact hdi
    · intro k i hdi
      rw [hdlook] at hdi
      by_cases hk : k = k0
      · rw [if_pos hk] at hdi
        obtain rfl := Option.some.inj hdi
        rw [hcelln]
        exact fun he => Cell.noConfusion he
      · rw [if_neg hk] at hdi
        rw [hcell i (h.idBound k i (Or.inr hdi))]
        exact h.dirtyNotExp k i hdi
    · intro k i href
      rw [hlen]
      rcases href with h1 | h1
      · rw [htro] at h1
        exact Nat.lt_succ_of_lt (h.idBound k i (Or.inl h1))
      · rw [hdlook] at h1
        by_cases hk : k = k0
        · rw [if_pos hk] at h1
          obtain rfl := Option.some.inj h1
          exact Nat.lt_succ_self _
        · rw [if_neg hk] at h1
          exact Nat.lt_succ_of_lt (h.idBound k i (Or.inr h1))
    · intro k1 k2 i h1 h2
      rw [htro] at h1 h2
      rw [hdlook] at h1 h2
      have hres : ∀ k3, (alookup (loadRO s).1 k3 = some i ∨
          (if k3 = k0 then some s.heap.length else alookup (dirtyL s) k3) = some i) →
          (k3 = k0 ∧ i = s.heap.length) ∨
          (alookup (loadRO s).1 k3 = some i ∨ alookup (dirtyL s) k3 = some i) := by
        intro k3 h3
        rcases h3 with h3 | h3
        · exact Or.inr (Or.inl h3)
        · by_cases hk : k3 = k0
          · rw [if_pos hk] at h3
            exact Or.inl ⟨hk, (Option.some.inj h3).symm⟩
          · rw [if_neg hk] at h3
            exact Or.inr (Or.inr h3)
      rcases hres k1 h1 with ⟨hk1, hi1⟩ | g1
      · rcases hres k2 h2 with ⟨hk2, hi2⟩ | g2
        · rw [hk1, hk2]
        · subst hi1
          exact absurd (h.idBound k2 _ g2) (Nat.lt_irrefl _)
      · rcases hres k2 h2 with ⟨hk2, hi2⟩ | g2
        · subst hi2
          exact absurd (h.idBound k1 _ g1) (Nat.lt_irrefl _)
        · exact h.idInj k1 k2 i g1 g2
    · show ((ainsert (dirtyL s) k0 s.heap.length).map Prod.fst).Nodup
      exact ainsert_keys_nodup _ _ h.dirtyNodup
    · intro hdn2
      exact Option.noConfusion hdn2
  · intro k
    rw [absM_def, htro]
    unfold upd
    by_cases hk : k = k0
    · subst hk
      rw [hr, if_pos rfl]
      dsimp only
      rw [hdlook, if_pos rfl]
      simp [hcelln, Cell.load]
    · rw [if_neg hk, absM_def]
      rcases hri : alookup (loadRO s).1 k with _ | i
      · dsimp only
        rw [hdlook, if_neg hk]
        rcases hdi : alookup (dirtyL s) k with _ | i
        · rfl
        · simp [hcell i (h.idBound k i (Or.inr hdi))]
      · dsimp only
        rw [hcell i (h.idBound k i (Or.inl hri))]

theorem eraseDirty_spec (s : MapState K V) (h : Inv s) (k0 : K)
    (hr : alookup (loadRO s).1 k0 = none) :
    Inv { s with dirty := s.dirty.map (fun d => aerase d k0) } ∧
    (∀ k, absM { s with dirty := s.dirty.map (fun d => aerase d k0) } k
        = upd (absM s) k0 none k) ∧
    dirtyL { s with dirty := s.dirty.map (fun d => aerase d k0) }
      = aerase (dirtyL s) k0 := by
  have hmapnone : (s.dirty.map (fun d => aerase d k0)) = none ↔ s.dirty = none := by
    cases s.dirty <;> simp
  have htdl : dirtyL { s with dirty := s.dirty.map (fun d => aerase d k0) }
      = aerase (dirtyL s) k0 := by
    show (s.dirty.map (fun d => aerase d k0)).getD [] = aerase (s.dirty.getD []) k0
    cases s.dirty <;> simp [aerase]
  have hdlook : ∀ k, alookup (dirtyL { s with dirty := s.dirty.map (fun d => aerase d k0) }) k
      = if k = k0 then none else alookup (dirtyL s) k := by
    intro k
    rw [htdl]
    by_cases hk : k = k0
    · subst hk
      rw [if_pos rfl]
      exact alookup_aerase_self _ _ h.dirtyNodup
    · rw [if_neg hk]
      exact alookup_aerase_ne _ hk
  refine ⟨⟨?_, ?_, ?_, ?_, ?_, ?_, ?_, h.readNodup, ?_, ?_⟩, ?_, htdl⟩
  · intro k i hdi hri
    rw [hdlook] at hdi
    by_cases hk : k = k0
    · rw [if_pos hk] at hdi
      exact Option.noConfusion hdi
    · rw [if_neg hk] at hdi
      exact h.amendedOfDirtyExtra k i hdi hri
  · intro hdn
    exact h.notAmendedOfNoDirty (hmapnone.1 hdn)
  · intro k i j hri hdj
    rw [hdlook] at hdj
    by_cases hk : k = k0
    · rw [if_pos hk] at hdj
      exact Option.noConfusion hdj
    · rw [if_neg hk] at hdj
      exact h.agree k i j hri hdj
  · intro hdn2 k i hri
    have hsdn : ¬ s.dirty = none := by
      intro hsd
      exact hdn2 (hmapnone.2 hsd)
    have hk : ¬ k = k0 := by
      intro hk
      subst hk
      have hri2 : alookup (loadRO s).1 k = some i := hri
      rw [hr] at hri2
      exact Option.noConfusion hri2
    rcases h.readSub hsdn k i hri with hdi | hdi
    · refine Or.inl ?_
      rw [hdlook, if_neg hk]
      exact hdi
    · exact Or.inr hdi
  · intro k i hdi
    rw [hdlook] at hdi
    by_cases hk : k = k0
    · rw [if_pos hk] at hdi
      exact Option.noConfusion hdi
    · rw [if_neg hk] at hdi
      exact h.dirtyNotExp k i hdi
  · intro k i href
    rcases href with h1 | h1
    · exact h.idBound k i (Or.inl h1)
    · rw [hdlook] at h1
      by_cases hk : k = k0
      · rw [if_pos hk] at h1
        exact Option.noConfusion h1
      · rw [if_neg hk] at h1
        exact h.idBound k i (Or.inr h1)
  · intro k1 k2 i h1 h2
    have hres : ∀ k3, (alookup (loadRO s).1 k3 = some i ∨
        alookup (dirtyL { s with dirty := s.dirty.map (fun d => aerase d k0) }) k3 = some i) →
        alookup (loadRO s).1 k3 = some i ∨ alookup (dirtyL s) k3 = some i := by
      intro k3 h3
      rcases h3 with h3 | h3
      · exact Or.inl h3
      · rw [hdlook] at h3
        by_cases hk : k3 = k0
        · rw [if_pos hk] at h3
          exact Option.noConfusion h3
        · rw [if_neg hk] at h3
          exact Or.inr h3
    exact h.idInj k1 k2 i (hres k1 h1) (hres k2 h2)
  · rw [htdl]
    exact aerase_keys_nodup _ h.dirtyNodup
  · intro hdn
    exact h.noExpNoDirty (hmapnone.1 hdn)
  · intro k
    rw [absM_def]
    have htro : (loadRO { s with dirty := s.dirty.map (fun d => aerase d k0) }).1
        = (loadRO s).1 := rfl
    have hth : ({ s with dirty := s.dirty.map (fun d => aerase d k0) } : MapState K V).heap
        = s.heap := rfl
    rw [htro, hth]
    unfold upd
    by_cases hk : k = k0
    · subst hk
      rw [hr, if_pos rfl]
      dsimp only
      rw [hdlook, if_pos rfl]
      rfl
    · rw [if_neg hk, absM_def]
      rcases hri : alookup (loadRO s).1 k with _ | i
      · dsimp only
        rw [hdlook, if_neg hk]
      · dsimp only

/-! ### Un-expunging an entry under the lock -/

theorem unexpungeInsert_spec (s : MapState K V) (h : Inv s) {k0 : K} {i : Nat} (v : V)
    (hr : alookup (loadRO s).1 k0 = some i) (hdn : ¬ s.dirty = none) :
    Inv { s with
          dirty := some (ainsert (dirtyL s) k0 i),
          heap := hset s.heap i (Cell.live v) } ∧
    ∀ k, absM { s with
          dirty := some (ainsert (dirtyL s) k0 i),
          heap := hset s.heap i (Cell.live v) } k = upd (absM s) k0 (some v) k := by
  have hlen : i < s.heap.length := h.idBound k0 i (Or.inl hr)
  set t : MapState K V := { s with
          dirty := some (ainsert (dirtyL s) k0 i),
          heap := hset s.heap i (Cell.live v) } with htt
  have htro : loadRO t = loadRO s := rfl
  have hdlook : ∀ k, alookup (dirtyL t) k =
      if k = k0 then some i else alookup (dirtyL s) k := by
    intro k
    show alookup (ainsert (dirtyL s) k0 i) k = _
    by_cases hk : k = k0
    · subst hk
      rw [if_pos rfl]
      exact alookup_ainsert_self _ _ _
    · rw [if_neg hk]
      exact alookup_ainsert_ne _ _ hk
  have hcelli : hget t.heap i = Cell.live v := hget_hset_self _ hlen
  have hcell : ∀ j, ¬ j = i → hget t.heap j = hget s.heap j := by
    intro j hj
    exact hget_hset_ne _ _ hj
  have hrefold : ∀ k j, (alookup (loadRO s).1 k = some j ∨ alookup (dirtyL t) k = some j) →
      alookup (loadRO s).1 k = some j ∨ alookup (dirtyL s) k = some j := by
    intro k j hk
    rcases hk with hk | hk
    · exact Or.inl hk
    · rw [hdlook] at hk
      by_cases hkk : k = k0
      · rw [if_pos hkk] at hk
        obtain rfl := Option.some.inj hk
        subst hkk
        exact Or.inl hr
      · rw [if_neg hkk] at hk
        exact Or.inr hk
  have honlyk0 : ∀ k j, ¬ k = k0 →
      (alookup (loadRO s).1 k = some j ∨ alookup (dirtyL s) k = some j) → ¬ j = i := by
    intro k j hk hj he
    subst he
    exact hk (h.idInj k k0 j hj (Or.inl hr))
  constructor
  · refine ⟨?_, ?_, ?_, ?_, ?_, ?_, ?_, h.readNodup, ?_, ?_⟩
    · intro k j hdj hrk
      rw [hdlook] at hdj
      by_cases hk : k = k0
      · subst hk
        have hrk2 : alookup (loadRO s).1 k = none := hrk
        rw [hr] at hrk2
        exact Option.noConfusion hrk2
      · rw [if_neg hk] at hdj
        exact h.amendedOfDirtyExtra k j hdj hrk
    · intro hdn2
      exact Option.noConfusion hdn2
    · intro k i2 j hri hdj
      rw [hdlook] at hdj
      by_cases hk : k = k0
      · subst hk
        rw [if_pos rfl] at hdj
        obtain rfl := Option.some.inj hdj
        have hri2 : alookup (loadRO s).1 k = some i2 := hri
        rw [hr] at hri2
        exact (Option.some.inj hri2).symm
      · rw [if_neg hk] at hdj
        exact h.agree k i2 j hri hdj
    · intro _ k j hrk
      by_cases hk : k = k0
      · subst hk
        refine Or.inl ?_
        rw [hdlook, if_pos rfl]
        have hrk2 : alookup (loadRO s).1 k = some j := hrk
        rw [hr] at hrk2
        rw [Option.some.inj hrk2]
      · rcases h.readSub hdn k j hrk with hdj | hdj
        · refine Or.inl ?_
          rw [hdlook, if_neg hk]
          exact hdj
        · refine Or.inr ?_
          rw [hcell j (honlyk0 k j hk (Or.inl hrk))]
          exact hdj
    · intro k j hdj
      rw [hdlook] at hdj
      by_cases hk : k = k0
      · rw [if_pos hk] at hdj
        obtain rfl := Option.some.inj hdj
        rw [hcelli]
        exact fun he => Cell.noConfusion he
      · rw [if_neg hk] at hdj
        rw [hcell j (honlyk0 k j hk (Or.inr hdj))]
        exact h.dirtyNotExp k j hdj
    · intro k j href
      have : (hset s.heap i (Cell.live v)).length = s.heap.length := hset_length _ _ _
      rw [show t.heap.length = s.heap.length from this]
      rcases hrefold k j href with h1 | h1
      · exact h.idBound k j (Or.inl h1)
      · exact h.idBound k j (Or.inr h1)
    · intro k1 k2 j h1 h2
      exact h.idInj k1 k2 j (hrefold k1 j h1) (hrefold k2 j h2)
    · show ((ainsert (dirtyL s) k0 i).map Prod.fst).Nodup
      exact ainsert_keys_nodup _ _ h.dirtyNodup
    · intro hdn2
      exact Option.noConfusion hdn2
  · intro k
    rw [absM_def, htro]
    unfold upd
    by_cases hk : k = k0
    · subst hk
      rw [hr, if_pos rfl]
      dsimp only
      rw [hcelli]
      rfl
    · rw [if_neg hk, absM_def]
      rcases hri : alookup (loadRO s).1 k with _ | j
      · dsimp only
        rw [hdlook, if_neg hk]
        rcases hdi : alookup (dirtyL s) k with _ | j
        · rfl
        · simp [hget_hset_ne _ _ (honlyk0 k j hk (Or.inr hdi))]
      · simp [hget_hset_ne _ _ (honlyk0 k j hk (Or.inl hri))]

/-! ### The initial state -/

theorem inv_initState : Inv (initState K V) := by
  refine ⟨?_, ?_, ?_, ?_, ?_, ?_, ?_, ?_, ?_, ?_⟩
  · intro k i h1
    simp [initState, dirtyL, alookup] at h1
  · intro _
    rfl
  · intro k i j h1 h2
    simp [initState, loadRO, alookup, Option.getD] at h1
  · intro _ k i h1
    simp [initState, loadRO, alookup, Option.getD] at h1
  · intro k i h1
    simp [initState, dirtyL, alookup] at h1
  · intro k i h1
    rcases h1 with h1 | h1
    · simp [initState, loadRO, alookup, Option.getD] at h1
    · simp [initState, dirtyL, alookup] at h1
  · intro k1 k2 i h1 h2
    rcases h1 with h1 | h1
    · simp [initState, loadRO, alookup, Option.getD] at h1
    · simp [initState, dirtyL, alookup] at h1
  · simp [initState, loadRO, Option.getD]
  · simp [initState, dirtyL]
  · intro _ k i h1
    simp [initState, loadRO, alookup, Option.getD] at h1

theorem absM_initState (k : K) : absM (initState K V) k = none := rfl

/-! ### Load -/

theorem mapLoad_spec (s : MapState K V) (h : Inv s) (k : K) :
    (mapLoad s k).1 = absM s k ∧ Inv (mapLoad s k).2 ∧
    ∀ k', absM (mapLoad s k).2 k' = absM s k' := by
  unfold mapLoad
  rcases hr : alookup (loadRO s).1 k with _ | i
  · try dsimp only
    by_cases ha : (loadRO s).2 = true
    · rw [if_pos ha]
      rcases hd : alookup (dirtyL s) k with _ | i
      · try dsimp only
        obtain ⟨hI, hA⟩ := missLocked_spec s h ha
        refine ⟨?_, hI, hA⟩
        rw [absM_def, hr]
        dsimp only
        rw [hd]
        rfl
      · try dsimp only
        obtain ⟨hI, hA⟩ := missLocked_spec s h ha
        refine ⟨?_, hI, hA⟩
        rw [missLocked_heap, absM_def, hr]
        dsimp only
        rw [hd]
        rfl
    · rw [if_neg ha]
      refine ⟨?_, h, fun k' => rfl⟩
      rw [absM_def, hr]
      dsimp only
      rcases hd : alookup (dirtyL s) k with _ | i
      · rfl
      · exact absurd (h.amendedOfDirtyExtra k i hd hr) ha
  · try dsimp only
    refine ⟨?_, h, fun k' => rfl⟩
    rw [absM_def, hr]

/-! ### Clear -/

theorem mapClear_spec (s : MapState K V) (h : Inv s) :
    Inv (mapClear s) ∧ ∀ k, absM (mapClear s) k = none := by
  unfold mapClear
  by_cases hc : (loadRO s).1.length = 0 ∧ (loadRO s).2 = false
  · rw [if_pos hc]
    refine ⟨h, fun k => ?_⟩
    have hre : (loadRO s).1 = [] := List.length_eq_zero.1 hc.1
    rw [absM_def, hre]
    simp only [alookup]
    rcases hd : alookup (dirtyL s) k with _ | i
    · rfl
    · have := h.amendedOfDirtyExtra k i hd (by rw [hre]; rfl)
      rw [hc.2] at this
      exact Bool.noConfusion this
  · rw [if_neg hc]
    have hcond : 0 < (loadRO s).1.length ∨ (loadRO s).2 = true := by
      by_cases h1 : (loadRO s).1.length = 0
      · refine Or.inr ?_
        cases h2 : (loadRO s).2
        · exact absurd ⟨h1, h2⟩ hc
        · rfl
      · exact Or.inl (Nat.pos_of_ne_zero h1)
    rw [if_pos hcond]
    dsimp only
    set t : MapState K V := { s with
        read := some (([] : List (K × Nat)), false),
        dirty := (s.dirty.map (fun _ => ([] : List (K × Nat)))),
        misses := 0 } with htt
    have htro : loadRO t = ([], false) := rfl
    have htdl : dirtyL t = [] := by
      show (s.dirty.map (fun _ => ([] : List (K × Nat)))).getD [] = []
      cases s.dirty <;> rfl
    constructor
    · refine ⟨?_, ?_, ?_, ?_, ?_, ?_, ?_, ?_, ?_, ?_⟩
      · intro k i h1
        rw [htdl] at h1
        simp [alookup] at h1
      · intro _
        rfl
      · intro k i j h1
        rw [htro] at h1
        simp [alookup] at h1
      · intro _ k i h1
        rw [htro] at h1
        simp [alookup] at h1
      · intro k i h1
        rw [htdl] at h1
        simp [alookup] at h1
      · intro k i h1
        rw [htro, htdl] at h1
        rcases h1 with h1 | h1 <;> simp [alookup] at h1
      · intro k1 k2 i h1 h2
        rw [htro, htdl] at h1
        rcases h1 with h1 | h1 <;> simp [alookup] at h1
      · rw [htro]
        simp
      · rw [htdl]
        simp
      · intro _ k i h1
        rw [htro] at h1
        simp [alookup] at h1
    · intro k
      rw [absM_def, htro, htdl]
      rfl

/-! ### Swap and Store -/

theorem dirty_of_read_live (s : MapState K V) (h : Inv s) {k : K} {i : Nat}
    (hr : alookup (loadRO s).1 k = some i) (hc : ¬ hget s.heap i = Cell.expunged) :
    alookup (dirtyL s) k = some i ∨ s.dirty = none := by
  by_cases hdn : s.dirty = none
  · exact Or.inr hdn
  · rcases h.readSub hdn k i hr with hd | hd
    · exact Or.inl hd
    · exact absurd hd hc

theorem dirty_nonnil_of_expunged (s : MapState K V) (h : Inv s) {k : K} {i : Nat}
    (hr : alookup (loadRO s).1 k = some i) (hc : hget s.heap i = Cell.expunged) :
    ¬ s.dirty = none := by
  intro hdn
  exact h.noExpNoDirty hdn k i hr hc

theorem mapSwapSlow_spec (s : MapState K V) (h : Inv s) (k : K) (v : V) :
    (mapSwapSlow s k v).1 = absM s k ∧ Inv (mapSwapSlow s k v).2 ∧
    ∀ k', absM (mapSwapSlow s k v).2 k' = upd (absM s) k (some v) k' := by
  unfold mapSwapSlow
  rcases hr : alookup (loadRO s).1 k with _ | i
  · try dsimp only
    rcases hd : alookup (dirtyL s) k with _ | i
    · -- brand-new key
      try dsimp only
      obtain ⟨hI1, hA1, hro1, ha1, hdn1, hlen1, hnone1⟩ := amendLocked_spec s h
      have hr1 : alookup (loadRO (amendLocked s)).1 k = none := by
        rw [hro1]
        exact hr
      have hd1 : alookup (dirtyL (amendLocked s)) k = none := hnone1 k hr hd
      obtain ⟨hI2, hA2⟩ := insertFresh_spec (amendLocked s) hI1 k v ha1 hr1 hd1
      refine ⟨?_, hI2, ?_⟩
      · simp [absM_def, hr, hd]
      · intro k'
        rw [hA2 k']
        unfold upd
        by_cases hk : k' = k
        · rw [if_pos hk, if_pos hk]
        · rw [if_neg hk, if_neg hk]
          exact hA1 k'
    · -- present only in the dirty overlay
      try dsimp only
      have hne := h.dirtyNotExp k i hd
      rcases hc : hget s.heap i with _ | _ | w
      · simp only [Cell.swapLocked]
        refine ⟨?_, ?_, ?_⟩
        · simp [absM_def, hr, hd, hc, Cell.load]
        · exact inv_hsetRef h (fun he => Cell.noConfusion he) (Or.inl hd) (Or.inr hd)
        · intro k'
          exact absM_hsetRef h (Cell.live v) (entryIdOf_dirty hr hd) k'
      · exact absurd hc hne
      · simp only [Cell.swapLocked]
        refine ⟨?_, ?_, ?_⟩
        · simp [absM_def, hr, hd, hc, Cell.load]
        · exact inv_hsetRef h (fun he => Cell.noConfusion he) (Or.inl hd) (Or.inr hd)
        · intro k'
          exact absM_hsetRef h (Cell.live v) (entryIdOf_dirty hr hd) k'
  · -- present in the snapshot
    try dsimp only
    have hlen : i < s.heap.length := h.idBound k i (Or.inl hr)
    rcases hc : hget s.heap i with _ | _ | w
    · -- nil cell: no un-expunge, plain swapLocked
      simp only [Cell.unexpungeLocked]
      rw [if_neg (by decide : ¬ (false = true))]
      rw [hget_hset_self _ hlen]
      simp only [Cell.swapLocked]
      rw [hset_hset]
      refine ⟨?_, ?_, ?_⟩
      · simp [absM_def, hr, hc, Cell.load]
      · exact inv_hsetRef h (fun he => Cell.noConfusion he)
          (dirty_of_read_live s h hr (by rw [hc]; exact fun he => Cell.noConfusion he))
          (Or.inl hr)
      · intro k'
        exact absM_hsetRef h (Cell.live v) (entryIdOf_read hr) k'
    · -- expunged cell: un-expunge and register in the dirty overlay
      simp only [Cell.unexpungeLocked]
      rw [if_pos (trivial : True)]
      rw [hget_hset_self _ hlen]
      simp only [Cell.swapLocked]
      rw [hset_hset]
      have hdnn : ¬ s.dirty = none := dirty_nonnil_of_expunged s h hr hc
      obtain ⟨hI2, hA2⟩ := unexpungeInsert_spec s h v hr hdnn
      refine ⟨?_, hI2, hA2⟩
      simp [absM_def, hr, hc, Cell.load]
    · -- live cell
      simp only [Cell.unexpungeLocked]
      rw [if_neg (by decide : ¬ (false = true))]
      rw [hget_hset_self _ hlen]
      simp only [Cell.swapLocked]
      rw [hset_hset]
      refine ⟨?_, ?_, ?_⟩
      · simp [absM_def, hr, hc, Cell.load]
      · exact inv_hsetRef h (fun he => Cell.noConfusion he)
          (dirty_of_read_live s h hr (by rw [hc]; exact fun he => Cell.noConfusion he))
          (Or.inl hr)
      · intro k'
        exact absM_hsetRef h (Cell.live v) (entryIdOf_read hr) k'

theorem mapSwap_spec (s : MapState K V) (h : Inv s) (k : K) (v : V) :
    (mapSwap s k v).1 = absM s k ∧ Inv (mapSwap s k v).2 ∧
    ∀ k', absM (mapSwap s k v).2 k' = upd (absM s) k (some v) k' := by
  unfold mapSwap
  rcases hr : alookup (loadRO s).1 k with _ | i
  · exact mapSwapSlow_spec s h k v
  · try dsimp only
    rcases hc : hget s.heap i with _ | _ | w
    · -- nil cell: trySwap succeeds with no previous value
      simp only [Cell.trySwap]
      refine ⟨?_, ?_, ?_⟩
      · simp [absM_def, hr, hc, Cell.load]
      · exact inv_hsetRef h (fun he => Cell.noConfusion he)
          (dirty_of_read_live s h hr (by rw [hc]; exact fun he => Cell.noConfusion he))
          (Or.inl hr)
      · intro k'
        exact absM_hsetRef h (Cell.live v) (entryIdOf_read hr) k'
    · -- expunged cell: fall back to the locked slow path
      simp only [Cell.trySwap]
      exact mapSwapSlow_spec s h k v
    · -- live cell: trySwap succeeds returning the previous value
      simp only [Cell.trySwap]
      refine ⟨?_, ?_, ?_⟩
      · simp [absM_def, hr, hc, Cell.load]
      · exact inv_hsetRef h (fun he => Cell.noConfusion he)
          (dirty_of_read_live s h hr (by rw [hc]; exact fun he => Cell.noConfusion he))
          (Or.inl hr)
      · intro k'
        exact absM_hsetRef h (Cell.live v) (entryIdOf_read hr) k'

theorem mapStore_spec (s : MapState K V) (h : Inv s) (k : K) (v : V) :
    Inv (mapStore s k v) ∧ ∀ k', absM (mapStore s k v) k' = upd (absM s) k (some v) k' := by
  obtain ⟨_, hI, hA⟩ := mapSwap_spec s h k v
  exact ⟨hI, hA⟩

/-! ### LoadOrStore -/

theorem mapLoadOrStoreSlow_spec (s : MapState K V) (h : Inv s) (k : K) (v : V) :
    (mapLoadOrStoreSlow s k v).1 = ((absM s k).getD v, (absM s k).isSome) ∧
    Inv (mapLoadOrStoreSlow s k v).2 ∧
    ∀ k', absM (mapLoadOrStoreSlow s k v).2 k'
      = upd (absM s) k (some ((absM s k).getD v)) k' := by
  unfold mapLoadOrStoreSlow
  rcases hr : alookup (loadRO s).1 k with _ | i
  · try dsimp only
    rcases hd : alookup (dirtyL s) k with _ | i
    · -- brand-new key
      try dsimp only
      have habs : absM s k = none := by simp [absM_def, hr, hd]
      obtain ⟨hI1, hA1, hro1, ha1, hdn1, hlen1, hnone1⟩ := amendLocked_spec s h
      have hr1 : alookup (loadRO (amendLocked s)).1 k = none := by
        rw [hro1]
        exact hr
      have hd1 : alookup (dirtyL (amendLocked s)) k = none := hnone1 k hr hd
      obtain ⟨hI2, hA2⟩ := insertFresh_spec (amendLocked s) hI1 k v ha1 hr1 hd1
      refine ⟨?_, hI2, ?_⟩
      · rw [habs]
        rfl
      · intro k'
        rw [hA2 k', habs]
        unfold upd
        by_cases hk : k' = k
        · rw [if_pos hk, if_pos hk]
          rfl
        · rw [if_neg hk, if_neg hk]
          exact hA1 k'
    · -- present only in the dirty overlay
      try dsimp only
      have hne := h.dirtyNotExp k i hd
      have ha : (loadRO s).2 = true := h.amendedOfDirtyExtra k i hd hr
      rcases hc : hget s.heap i with _ | _ | w
      · -- nil cell: store v, then record the miss
        simp only [Cell.tryLoadOrStore, Option.getD_some]
        have habs : absM s k = none := by simp [absM_def, hr, hd, hc, Cell.load]
        have hI2 := inv_hsetRef h (c := Cell.live v) (fun he => Cell.noConfusion he)
          (Or.inl hd) (Or.inr hd)
        have ha2 : (loadRO { s with heap := hset s.heap i (Cell.live v) }).2 = true := ha
        obtain ⟨hI3, hA3⟩ :=
          missLocked_spec { s with heap := hset s.heap i (Cell.live v) } hI2 ha2
        refine ⟨?_, hI3, ?_⟩
        · rw [habs]
          rfl
        · intro k'
          rw [hA3 k', habs]
          exact absM_hsetRef h (Cell.live v) (entryIdOf_dirty hr hd) k'
      · exact absurd hc hne
      · -- live cell: return the existing value, then record the miss
        simp only [Cell.tryLoadOrStore, Option.getD_some]
        have habs : absM s k = some w := by simp [absM_def, hr, hd, hc, Cell.load]
        have hI2 := inv_hsetRef h (c := Cell.live w) (fun he => Cell.noConfusion he)
          (Or.inl hd) (Or.inr hd)
        have ha2 : (loadRO { s with heap := hset s.heap i (Cell.live w) }).2 = true := ha
        obtain ⟨hI3, hA3⟩ :=
          missLocked_spec { s with heap := hset s.heap i (Cell.live w) } hI2 ha2
        refine ⟨?_, hI3, ?_⟩
        · rw [habs]
          rfl
        · intro k'
          rw [hA3 k', habs]
          have := absM_hsetRef h (Cell.live w) (entryIdOf_dirty hr hd) k'
          rw [this]
          unfold upd
          by_cases hk : k' = k
          · rw [if_pos hk, if_pos hk]
            rfl
          · rw [if_neg hk, if_neg hk]
  · -- present in the snapshot
    try dsimp only
    have hlen : i < s.heap.length := h.idBound k i (Or.inl hr)
    rcases hc : hget s.heap i with _ | _ | w
    · -- nil cell
      simp only [Cell.unexpungeLocked]
      rw [if_neg (by decide : ¬ (false = true))]
      rw [hget_hset_self _ hlen]
      simp only [Cell.tryLoadOrStore, Option.getD_some]
      rw [hset_hset]
      have habs : absM s k = none := by simp [absM_def, hr, hc, Cell.load]
      refine ⟨?_, ?_, ?_⟩
      · rw [habs]
        rfl
      · exact inv_hsetRef h (fun he => Cell.noConfusion he)
          (dirty_of_read_live s h hr (by rw [hc]; exact fun he => Cell.noConfusion he))
          (Or.inl hr)
      · intro k'
        rw [habs]
        exact absM_hsetRef h (Cell.live v) (entryIdOf_read hr) k'
    · -- expunged cell
      simp only [Cell.unexpungeLocked]
      rw [if_pos (trivial : True)]
      rw [hget_hset_self _ hlen]
      simp only [Cell.tryLoadOrStore, Option.getD_some]
      rw [hset_hset]
      have habs : absM s k = none := by simp [absM_def, hr, hc, Cell.load]
      have hdnn : ¬ s.dirty = none := dirty_nonnil_of_expunged s h hr hc
      obtain ⟨hI2, hA2⟩ := unexpungeInsert_spec s h v hr hdnn
      refine ⟨?_, hI2, ?_⟩
      · rw [habs]
        rfl
      · intro k'
        rw [habs]
        exact hA2 k'
    · -- live cell
      simp only [Cell.unexpungeLocked]
      rw [if_neg (by decide : ¬ (false = true))]
      rw [hget_hset_self _ hlen]
      simp only [Cell.tryLoadOrStore, Option.getD_some]
      rw [hset_hset]
      have habs : absM s k = some w := by simp [absM_def, hr, hc, Cell.load]
      refine ⟨?_, ?_, ?_⟩
      · rw [habs]
        rfl
      · exact inv_hsetRef h (fun he => Cell.noConfusion he)
          (dirty_of_read_live s h hr (by rw [hc]; exact fun he => Cell.noConfusion he))
          (Or.inl hr)
      · intro k'
        rw [habs]
        have := absM_hsetRef h (Cell.live w) (entryIdOf_read hr) k'
        rw [this]
        unfold upd
        by_cases hk : k' = k
        · rw [if_pos hk, if_pos hk]
          rfl
        · rw [if_neg hk, if_neg hk]

theorem mapLoadOrStore_spec (s : MapState K V) (h : Inv s) (k : K) (v : V) :
    (mapLoadOrStore s k v).1 = ((absM s k).getD v, (absM s k).isSome) ∧
    Inv (mapLoadOrStore s k v).2 ∧
    ∀ k', absM (mapLoadOrStore s k v).2 k'
      = upd (absM s) k (some ((absM s k).getD v)) k' := by
  unfold mapLoadOrStore
  rcases hr : alookup (loadRO s).1 k with _ | i
  · exact mapLoadOrStoreSlow_spec s h k v
  · try dsimp only
    rcases hc : hget s.heap i with _ | _ | w
    · -- nil cell: store v lock-free
      simp only [Cell.tryLoadOrStore]
      have habs : absM s k = none := by simp [absM_def, hr, hc, Cell.load]
      refine ⟨?_, ?_, ?_⟩
      · rw [habs]
        rfl
      · exact inv_hsetRef h (fun he => Cell.noConfusion he)
          (dirty_of_read_live s h hr (by rw [hc]; exact fun he => Cell.noConfusion he))
          (Or.inl hr)
      · intro k'
        rw [habs]
        exact absM_hsetRef h (Cell.live v) (entryIdOf_read hr) k'
    · -- expunged cell: locked slow path
      simp only [Cell.tryLoadOrStore]
      exact mapLoadOrStoreSlow_spec s h k v
    · -- live cell: return the existing value
      simp only [Cell.tryLoadOrStore]
      have habs : absM s k = some w := by simp [absM_def, hr, hc, Cell.load]
      refine ⟨?_, ?_, ?_⟩
      · rw [habs]
        rfl
      · exact inv_hsetRef h (fun he => Cell.noConfusion he)
          (dirty_of_read_live s h hr (by rw [hc]; exact fun he => Cell.noConfusion he))
          (Or.inl hr)
      · intro k'
        rw [habs]
        have := absM_hsetRef h (Cell.live w) (entryIdOf_read hr) k'
        rw [this]
        unfold upd
        by_cases hk : k' = k
        · rw [if_pos hk, if_pos hk]
          rfl
        · rw [if_neg hk, if_neg hk]

/-! ### LoadAndDelete and Delete -/

theorem missLocked_refs (t : MapState K V) :
    ∀ k i, (alookup (loadRO (missLocked t)).1 k = some i ∨
            alookup (dirtyL (missLocked t)) k = some i) →
      alookup (loadRO t).1 k = some i ∨ alookup (dirtyL t) k = some i := by
  unfold missLocked
  dsimp only
  split
  · exact fun k i hk => hk
  · intro k i hk
    rcases hk with hk | hk
    · exact Or.inr hk
    · have : alookup ([] : List (K × Nat)) k = some i := hk
      simp [alookup] at this

theorem mapLoadAndDelete_spec (s : MapState K V) (h : Inv s) (k : K) :
    (mapLoadAndDelete s k).1 = absM s k ∧ Inv (mapLoadAndDelete s k).2 ∧
    ∀ k', absM (mapLoadAndDelete s k).2 k' = upd (absM s) k none k' := by
  unfold mapLoadAndDelete
  rcases hr : alookup (loadRO s).1 k with _ | i
  · try dsimp only
    by_cases ha : (loadRO s).2 = true
    · rw [if_pos ha]
      try dsimp only
      rcases hd : alookup (dirtyL s) k with _ | i
      · -- key nowhere: delete from dirty is a no-op, record a miss
        try dsimp only
        have habs : absM s k = none := by simp [absM_def, hr, hd]
        obtain ⟨hIe, hAe, hdle⟩ := eraseDirty_spec s h k hr
        have hae : (loadRO { s with dirty := s.dirty.map (fun d => aerase d k) }).2
            = true := ha
        obtain ⟨hIm, hAm⟩ :=
          missLocked_spec { s with dirty := s.dirty.map (fun d => aerase d k) } hIe hae
        refine ⟨?_, hIm, ?_⟩
        · rw [habs]
        · intro k'
          rw [hAm k']
          exact hAe k'
      · -- key in the dirty overlay
        try dsimp only
        set er : MapState K V := { s with dirty := s.dirty.map (fun d => aerase d k) }
          with her
        obtain ⟨hIe, hAe, hdle⟩ := eraseDirty_spec s h k hr
        have hae : (loadRO er).2 = true := ha
        obtain ⟨hIm, hAm⟩ := missLocked_spec er hIe hae
        have hh1 : (missLocked er).heap = s.heap := missLocked_heap er
        have hun : ∀ k'', ¬ alookup (loadRO (missLocked er)).1 k'' = some i ∧
            ¬ alookup (dirtyL (missLocked er)) k'' = some i := by
          intro k''
          have herref : ∀ j, (alookup (loadRO er).1 k'' = some j ∨
              alookup (dirtyL er) k'' = some j) → ¬ j = i := by
            intro j hj he
            subst he
            rcases hj with hj | hj
            · have hj2 : alookup (loadRO s).1 k'' = some j := hj
              have := h.idInj k'' k j (Or.inl hj2) (Or.inr hd)
              subst this
              rw [hr] at hj2
              exact Option.noConfusion hj2
            · rw [hdle] at hj
              by_cases hkk : k'' = k
              · subst hkk
                rw [alookup_aerase_self _ _ h.dirtyNodup] at hj
                exact Option.noConfusion hj
              · rw [alookup_aerase_ne _ hkk] at hj
                have := h.idInj k'' k j (Or.inr hj) (Or.inr hd)
                exact hkk this
          constructor
          · intro hk2
            exact herref i (missLocked_refs er k'' i (Or.inl hk2)) rfl
          · intro hk2
            exact herref i (missLocked_refs er k'' i (Or.inr hk2)) rfl
        rw [show hget (missLocked er).heap i = hget s.heap i by rw [hh1]]
        have hne := h.dirtyNotExp k i hd
        rcases hc : hget s.heap i with _ | _ | w
        · simp only [Cell.del]
          refine ⟨?_, inv_hsetUnref hIm _ hun, ?_⟩
          · simp [absM_def, hr, hd, hc, Cell.load]
          · intro k'
            rw [absM_hsetUnref _ hun k', hAm k']
            exact hAe k'
        · exact absurd hc hne
        · simp only [Cell.del]
          refine ⟨?_, inv_hsetUnref hIm _ hun, ?_⟩
          · simp [absM_def, hr, hd, hc, Cell.load]
          · intro k'
            rw [absM_hsetUnref _ hun k', hAm k']
            exact hAe k'
    · rw [if_neg ha]
      have habs : absM s k = none := by
        rw [absM_def, hr]
        dsimp only
        rcases hd : alookup (dirtyL s) k with _ | i
        · rfl
        · exact absurd (h.amendedOfDirtyExtra k i hd hr) ha
      refine ⟨habs.symm, h, ?_⟩
      intro k'
      unfold upd
      by_cases hk : k' = k
      · rw [if_pos hk, hk, habs]
      · rw [if_neg hk]
  · -- fast path: entry in the snapshot
    try dsimp only
    have hlen : i < s.heap.length := h.idBound k i (Or.inl hr)
    rcases hc : hget s.heap i with _ | _ | w
    · simp only [Cell.del]
      refine ⟨?_, ?_, ?_⟩
      · simp [absM_def, hr, hc, Cell.load]
      · exact inv_hsetRef h (fun he => Cell.noConfusion he)
          (dirty_of_read_live s h hr (by rw [hc]; exact fun he => Cell.noConfusion he))
          (Or.inl hr)
      · intro k'
        exact absM_hsetRef h Cell.null (entryIdOf_read hr) k'
    · simp only [Cell.del]
      have hh : ∀ j, hget (hset s.heap i Cell.expunged) j = hget s.heap j := by
        intro j
        by_cases hj : j = i
        · subst hj
          rw [hget_hset_self _ hlen, hc]
        · exact hget_hset_ne _ _ hj
      have habs : absM s k = none := by simp [absM_def, hr, hc, Cell.load]
      refine ⟨?_, h.congr rfl rfl hh (hset_length _ _ _), ?_⟩
      · rw [habs]
      · intro k'
        have hcon := @absM_congr K V _ _ _ s
          { s with heap := hset s.heap i Cell.expunged } rfl rfl hh
        rw [hcon k']
        unfold upd
        by_cases hk : k' = k
        · rw [if_pos hk, hk, habs]
        · rw [if_neg hk]
    · simp only [Cell.del]
      refine ⟨?_, ?_, ?_⟩
      · simp [absM_def, hr, hc, Cell.load]
      · exact inv_hsetRef h (fun he => Cell.noConfusion he)
          (dirty_of_read_live s h hr (by rw [hc]; exact fun he => Cell.noConfusion he))
          (Or.inl hr)
      · intro k'
        exact absM_hsetRef h Cell.null (entryIdOf_read hr) k'

theorem mapDelete_spec (s : MapState K V) (h : Inv s) (k : K) :
    Inv (mapDelete s k) ∧ ∀ k', absM (mapDelete s k) k' = upd (absM s) k none k' := by
  obtain ⟨_, hI, hA⟩ := mapLoadAndDelete_spec s h k
  exact ⟨hI, hA⟩

/-! ### CompareAndSwap and CompareAndDelete -/

theorem missLocked_entryIdOf (t : MapState K V) (k : K) (i : Nat)
    (hr : alookup (loadRO t).1 k = none) (hd : alookup (dirtyL t) k = some i) :
    entryIdOf (missLocked t) k = some i := by
  unfold missLocked
  dsimp only
  split
  · exact entryIdOf_dirty hr hd
  · exact entryIdOf_read hd

theorem missLocked_dirty_cases (t : MapState K V) (k : K) (i : Nat)
    (hd : alookup (dirtyL t) k = some i) :
    alookup (dirtyL (missLocked t)) k = some i ∨ (missLocked t).dirty = none := by
  unfold missLocked
  dsimp only
  split
  · exact Or.inl hd
  · exact Or.inr rfl

theorem mapCompareAndSwap_spec (s : MapState K V) (h : Inv s) (k : K) (old nw : V) :
    (mapCompareAndSwap s k old nw).1
      = (match absM s k with
         | some w => decide (w = old)
         | none => false) ∧
    Inv (mapCompareAndSwap s k old nw).2 ∧
    ∀ k', absM (mapCompareAndSwap s k old nw).2 k'
      = upd (absM s) k (match absM s k with
          | some w => if w = old then some nw else some w
          | none => none) k' := by
  unfold mapCompareAndSwap
  rcases hr : alookup (loadRO s).1 k with _ | i
  · try dsimp only
    by_cases ha : (loadRO s).2 = true
    · rw [if_pos ha]
      try dsimp only
      rcases hd : alookup (dirtyL s) k with _ | i
      · try dsimp only
        have habs : absM s k = none := by simp [absM_def, hr, hd]
        refine ⟨by rw [habs], h, ?_⟩
        intro k'
        rw [habs]
        unfold upd
        by_cases hk : k' = k
        · rw [if_pos hk, hk, habs]
        · rw [if_neg hk]
      · try dsimp only
        have hne := h.dirtyNotExp k i hd
        rcases hc : hget s.heap i with _ | _ | w
        · simp only [Cell.tryCompareAndSwap]
          have habs : absM s k = none := by simp [absM_def, hr, hd, hc, Cell.load]
          have hI2 := inv_hsetRef h (c := Cell.null) (fun he => Cell.noConfusion he)
            (Or.inl hd) (Or.inr hd)
          have ha2 : (loadRO { s with heap := hset s.heap i Cell.null }).2 = true := ha
          obtain ⟨hI3, hA3⟩ :=
            missLocked_spec { s with heap := hset s.heap i Cell.null } hI2 ha2
          refine ⟨by rw [habs], hI3, ?_⟩
          intro k'
          rw [hA3 k', habs]
          have := absM_hsetRef h Cell.null (entryIdOf_dirty hr hd) k'
          rw [this]
          rfl
        · exact absurd hc hne
        · simp only [Cell.tryCompareAndSwap]
          have habs : absM s k = some w := by simp [absM_def, hr, hd, hc, Cell.load]
          by_cases hw : w = old
          · rw [if_pos hw]
            have hI2 := inv_hsetRef h (c := Cell.live nw) (fun he => Cell.noConfusion he)
              (Or.inl hd) (Or.inr hd)
            have ha2 : (loadRO { s with heap := hset s.heap i (Cell.live nw) }).2 = true := ha
            obtain ⟨hI3, hA3⟩ :=
              missLocked_spec { s with heap := hset s.heap i (Cell.live nw) } hI2 ha2
            refine ⟨by simp [habs, hw], hI3, ?_⟩
            intro k'
            rw [hA3 k', habs]
            dsimp only
            rw [if_pos hw]
            exact absM_hsetRef h (Cell.live nw) (entryIdOf_dirty hr hd) k'
          · rw [if_neg hw]
            have hI2 := inv_hsetRef h (c := Cell.live w) (fun he => Cell.noConfusion he)
              (Or.inl hd) (Or.inr hd)
            have ha2 : (loadRO { s with heap := hset s.heap i (Cell.live w) }).2 = true := ha
            obtain ⟨hI3, hA3⟩ :=
              missLocked_spec { s with heap := hset s.heap i (Cell.live w) } hI2 ha2
            refine ⟨by simp [habs, hw], hI3, ?_⟩
            intro k'
            rw [hA3 k', habs]
            dsimp only
            rw [if_neg hw]
            exact absM_hsetRef h (Cell.live w) (entryIdOf_dirty hr hd) k'
    · rw [if_neg ha]
      have habs : absM s k = none := by
        rw [absM_def, hr]
        dsimp only
        rcases hd : alookup (dirtyL s) k with _ | i
        · rfl
        · exact absurd (h.amendedOfDirtyExtra k i hd hr) ha
      refine ⟨by rw [habs], h, ?_⟩
      intro k'
      rw [habs]
      unfold upd
      by_cases hk : k' = k
      · rw [if_pos hk, hk, habs]
      · rw [if_neg hk]
  · try dsimp only
    rcases hc : hget s.heap i with _ | _ | w
    · simp only [Cell.tryCompareAndSwap]
      have habs : absM s k = none := by simp [absM_def, hr, hc, Cell.load]
      refine ⟨by rw [habs], ?_, ?_⟩
      · exact inv_hsetRef h (fun he => Cell.noConfusion he)
          (dirty_of_read_live s h hr (by rw [hc]; exact fun he => Cell.noConfusion he))
          (Or.inl hr)
      · intro k'
        rw [habs]
        exact absM_hsetRef h Cell.null (entryIdOf_read hr) k'
    · simp only [Cell.tryCompareAndSwap]
      have habs : absM s k = none := by simp [absM_def, hr, hc, Cell.load]
      have hh : ∀ j, hget (hset s.heap i Cell.expunged) j = hget s.heap j := by
        intro j
        by_cases hj : j = i
        · subst hj
          rw [hget_hset_self _ (h.idBound k j (Or.inl hr)), hc]
        · exact hget_hset_ne _ _ hj
      refine ⟨by rw [habs], h.congr rfl rfl hh (hset_length _ _ _), ?_⟩
      intro k'
      have hcon := @absM_congr K V _ _ _ s
        { s with heap := hset s.heap i Cell.expunged } rfl rfl hh
      rw [hcon k', habs]
      unfold upd
      by_cases hk : k' = k
      · rw [if_pos hk, hk, habs]
      · rw [if_neg hk]
    · simp only [Cell.tryCompareAndSwap]
      have habs : absM s k = some w := by simp [absM_def, hr, hc, Cell.load]
      by_cases hw : w = old
      · rw [if_pos hw]
        refine ⟨by simp [habs, hw], ?_, ?_⟩
        · exact inv_hsetRef h (fun he => Cell.noConfusion he)
            (dirty_of_read_live s h hr (by rw [hc]; exact fun he => Cell.noConfusion he))
            (Or.inl hr)
        · intro k'
          rw [habs]
          dsimp only
          rw [if_pos hw]
          exact absM_hsetRef h (Cell.live nw) (entryIdOf_read hr) k'
      · rw [if_neg hw]
        refine ⟨by simp [habs, hw], ?_, ?_⟩
        · exact inv_hsetRef h (fun he => Cell.noConfusion he)
            (dirty_of_read_live s h hr (by rw [hc]; exact fun he => Cell.noConfusion he))
            (Or.inl hr)
        · intro k'
          rw [habs]
          dsimp only
          rw [if_neg hw]
          exact absM_hsetRef h (Cell.live w) (entryIdOf_read hr) k'

theorem mapCompareAndDelete_spec (s : MapState K V) (h : Inv s) (k : K) (old : V) :
    (mapCompareAndDelete s k old).1
      = (match absM s k with
         | some w => decide (w = old)
         | none => false) ∧
    Inv (mapCompareAndDelete s k old).2 ∧
    ∀ k', absM (mapCompareAndDelete s k old).2 k'
      = upd (absM s) k (match absM s k with
          | some w => if w = old then none else some w
          | none => none) k' := by
  unfold mapCompareAndDelete
  rcases hr : alookup (loadRO s).1 k with _ | i
  · try dsimp only
    by_cases ha : (loadRO s).2 = true
    · rw [if_pos ha]
      try dsimp only
      rcases hd : alookup (dirtyL s) k with _ | i
      · try dsimp only
        have habs : absM s k = none := by simp [absM_def, hr, hd]
        obtain ⟨hIm, hAm⟩ := missLocked_spec s h ha
        refine ⟨by rw [habs], hIm, ?_⟩
        intro k'
        rw [hAm k', habs]
        unfold upd
        by_cases hk : k' = k
        · rw [if_pos hk, hk, habs]
        · rw [if_neg hk]
      · try dsimp only
        have hne := h.dirtyNotExp k i hd
        obtain ⟨hIm, hAm⟩ := missLocked_spec s h ha
        have hid1 : entryIdOf (missLocked s) k = some i := missLocked_entryIdOf s k i hr hd
        have hh1 : (missLocked s).heap = s.heap := missLocked_heap s
        rw [show hget (missLocked s).heap i = hget s.heap i by rw [hh1]]
        rcases hc : hget s.heap i with _ | _ | w
        · simp only [Cell.compareAndDelete]
          have habs : absM s k = none := by simp [absM_def, hr, hd, hc, Cell.load]
          refine ⟨by rw [habs], ?_, ?_⟩
          · exact inv_hsetRef hIm (fun he => Cell.noConfusion he)
              (missLocked_dirty_cases s k i hd) (entryIdOf_mem hid1)
          · intro k'
            rw [absM_hsetRef hIm Cell.null hid1 k', habs]
            unfold upd
            by_cases hk : k' = k
            · simp [hk, Cell.load]
            · rw [if_neg hk, if_neg hk]
              exact hAm k'
        · exact absurd hc hne
        · simp only [Cell.compareAndDelete]
          have habs : absM s k = some w := by simp [absM_def, hr, hd, hc, Cell.load]
          by_cases hw : w = old
          · rw [if_pos hw]
            refine ⟨by simp [habs, hw], ?_, ?_⟩
            · exact inv_hsetRef hIm (fun he => Cell.noConfusion he)
                (missLocked_dirty_cases s k i hd) (entryIdOf_mem hid1)
            · intro k'
              rw [absM_hsetRef hIm Cell.null hid1 k', habs]
              dsimp only
              rw [if_pos hw]
              unfold upd
              by_cases hk : k' = k
              · simp [hk, Cell.load]
              · rw [if_neg hk, if_neg hk]
                exact hAm k'
          · rw [if_neg hw]
            refine ⟨by simp [habs, hw], ?_, ?_⟩
            · exact inv_hsetRef hIm (fun he => Cell.noConfusion he)
                (missLocked_dirty_cases s k i hd) (entryIdOf_mem hid1)
            · intro k'
              rw [absM_hsetRef hIm (Cell.live w) hid1 k', habs]
              dsimp only
              rw [if_neg hw]
              unfold upd
              by_cases hk : k' = k
              · simp [hk, Cell.load]
              · rw [if_neg hk, if_neg hk]
                exact hAm k'
    · rw [if_neg ha]
      have habs : absM s k = none := by
        rw [absM_def, hr]
        dsimp only
        rcases hd : alookup (dirtyL s) k with _ | i
        · rfl
        · exact absurd (h.amendedOfDirtyExtra k i hd hr) ha
      refine ⟨by rw [habs], h, ?_⟩
      intro k'
      rw [habs]
      unfold upd
      by_cases hk : k' = k
      · rw [if_pos hk, hk, habs]
      · rw [if_neg hk]
  · try dsimp only
    rcases hc : hget s.heap i with _ | _ | w
    · simp only [Cell.compareAndDelete]
      have habs : absM s k = none := by simp [absM_def, hr, hc, Cell.load]
      refine ⟨by rw [habs], ?_, ?_⟩
      · exact inv_hsetRef h (fun he => Cell.noConfusion he)
          (dirty_of_read_live s h hr (by rw [hc]; exact fun he => Cell.noConfusion he))
          (Or.inl hr)
      · intro k'
        rw [habs]
        exact absM_hsetRef h Cell.null (entryIdOf_read hr) k'
    · simp only [Cell.compareAndDelete]
      have habs : absM s k = none := by simp [absM_def, hr, hc, Cell.load]
      have hh : ∀ j, hget (hset s.heap i Cell.expunged) j = hget s.heap j := by
        intro j
        by_cases hj : j = i
        · subst hj
          rw [hget_hset_self _ (h.idBound k j (Or.inl hr)), hc]
        · exact hget_hset_ne _ _ hj
      refine ⟨by rw [habs], h.congr rfl rfl hh (hset_length _ _ _), ?_⟩
      intro k'
      have hcon := @absM_congr K V _ _ _ s
        { s with heap := hset s.heap i Cell.expunged } rfl rfl hh
      rw [hcon k', habs]
      unfold upd
      by_cases hk : k' = k
      · rw [if_pos hk, hk, habs]
      · rw [if_neg hk]
    · simp only [Cell.compareAndDelete]
      have habs : absM s k = some w := by simp [absM_def, hr, hc, Cell.load]
      by_cases hw : w = old
      · rw [if_pos hw]
        refine ⟨by simp [habs, hw], ?_, ?_⟩
        · exact inv_hsetRef h (fun he => Cell.noConfusion he)
            (dirty_of_read_live s h hr (by rw [hc]; exact fun he => Cell.noConfusion he))
            (Or.inl hr)
        · intro k'
          rw [habs]
          dsimp only
          rw [if_pos hw]
          exact absM_hsetRef h Cell.null (entryIdOf_read hr) k'
      · rw [if_neg hw]
        refine ⟨by simp [habs, hw], ?_, ?_⟩
        · exact inv_hsetRef h (fun he => Cell.noConfusion he)
            (dirty_of_read_live s h hr (by rw [hc]; exact fun he => Cell.noConfusion he))
            (Or.inl hr)
        · intro k'
          rw [habs]
          dsimp only
          rw [if_neg hw]
          exact absM_hsetRef h (Cell.live w) (entryIdOf_read hr) k'

/-! ### Range -/

theorem rangeGo_top_keys (h : List (Cell V)) (l : List (K × Nat)) (k : K)
    (hm : k ∈ (rangeGo h (fun _ _ => true) l).map Prod.fst) :
    k ∈ l.map Prod.fst := by
  induction l with
  | nil => simpa [rangeGo] using hm
  | cons p l ih =>
    obtain ⟨a, i⟩ := p
    rcases hc : Cell.load (hget h i) with _ | v
    · rw [show rangeGo h (fun _ _ => true) ((a, i) :: l)
          = rangeGo h (fun _ _ => true) l by simp [rangeGo, hc]] at hm
      exact List.mem_cons_of_mem _ (ih hm)
    · rw [show rangeGo h (fun _ _ => true) ((a, i) :: l)
          = (a, v) :: rangeGo h (fun _ _ => true) l by simp [rangeGo, hc]] at hm
      rw [List.map_cons, List.mem_cons] at hm
      rcases hm with hm | hm
      · rw [List.map_cons, List.mem_cons]
        exact Or.inl hm
      · exact List.mem_cons_of_mem _ (ih hm)

theorem rangeGo_top_nodup (h : List (Cell V)) (l : List (K × Nat))
    (hnd : (l.map Prod.fst).Nodup) :
    ((rangeGo h (fun _ _ => true) l).map Prod.fst).Nodup := by
  induction l with
  | nil => simp [rangeGo]
  | cons p l ih =>
    obtain ⟨a, i⟩ := p
    rw [List.map_cons, List.nodup_cons] at hnd
    dsimp only at hnd
    rcases hc : Cell.load (hget h i) with _ | v
    · rw [show rangeGo h (fun _ _ => true) ((a, i) :: l)
          = rangeGo h (fun _ _ => true) l by simp [rangeGo, hc]]
      exact ih hnd.2
    · rw [show rangeGo h (fun _ _ => true) ((a, i) :: l)
          = (a, v) :: rangeGo h (fun _ _ => true) l by simp [rangeGo, hc]]
      rw [List.map_cons, List.nodup_cons]
      refine ⟨?_, ih hnd.2⟩
      intro hm
      exact hnd.1 (rangeGo_top_keys h l a hm)

theorem rangeGo_top_alookup (h : List (Cell V)) (l : List (K × Nat))
    (hnd : (l.map Prod.fst).Nodup) (k : K) :
    alookup (rangeGo h (fun _ _ => true) l) k
      = (alookup l k).bind (fun i => Cell.load (hget h i)) := by
  induction l with
  | nil => simp [rangeGo, alookup]
  | cons p l ih =>
    obtain ⟨a, i⟩ := p
    rw [List.map_cons, List.nodup_cons] at hnd
    dsimp only at hnd
    by_cases hk : k = a
    · subst hk
      rw [show alookup ((k, i) :: l) k = some i by simp [alookup]]
      rcases hc : Cell.load (hget h i) with _ | v
      · rw [show rangeGo h (fun _ _ => true) ((k, i) :: l)
            = rangeGo h (fun _ _ => true) l by simp [rangeGo, hc]]
        rw [ih hnd.2, (alookup_eq_none _ _).2 hnd.1]
        simp [hc]
      · rw [show rangeGo h (fun _ _ => true) ((k, i) :: l)
            = (k, v) :: rangeGo h (fun _ _ => true) l by simp [rangeGo, hc]]
        simp [alookup, hc]
    · rw [show alookup ((a, i) :: l) k = alookup l k by simp [alookup, hk]]
      rcases hc : Cell.load (hget h i) with _ | v
      · rw [show rangeGo h (fun _ _ => true) ((a, i) :: l)
            = rangeGo h (fun _ _ => true) l by simp [rangeGo, hc]]
        exact ih hnd.2
      · rw [show rangeGo h (fun _ _ => true) ((a, i) :: l)
            = (a, v) :: rangeGo h (fun _ _ => true) l by simp [rangeGo, hc]]
        rw [show alookup ((a, v) :: rangeGo h (fun _ _ => true) l) k
            = alookup (rangeGo h (fun _ _ => true) l) k by simp [alookup, hk]]
        exact ih hnd.2

theorem mapRange_spec (s : MapState K V) (h : Inv s) :
    Inv (mapRange s (fun _ _ => true)).2 ∧
    (∀ k', absM (mapRange s (fun _ _ => true)).2 k' = absM s k') ∧
    ((mapRange s (fun _ _ => true)).1.map Prod.fst).Nodup ∧
    (∀ k, alookup (mapRange s (fun _ _ => true)).1 k = absM s k) := by
  unfold mapRange
  dsimp only
  by_cases ha : (loadRO s).2 = true
  · rw [if_pos ha]
    obtain ⟨hIp, hAp⟩ := promote_spec s h ha
    try dsimp only
    have hro1 : (loadRO { s with read := some (dirtyL s, false), dirty := none, misses := 0 }).1 = dirtyL s := rfl
    rw [hro1]
    refine ⟨hIp, hAp, ?_, ?_⟩
    · exact rangeGo_top_nodup _ _ h.dirtyNodup
    · intro k
      rw [rangeGo_top_alookup _ _ h.dirtyNodup k]
      rw [← hAp k, absM_def]
      rcases hd : alookup (dirtyL s) k with _ | i
      · rw [show alookup (loadRO { s with read := some (dirtyL s, false), dirty := none, misses := 0 }).1 k = none from hd]
        dsimp only
        rfl
      · rw [show alookup (loadRO { s with read := some (dirtyL s, false), dirty := none, misses := 0 }).1 k = some i from hd]
        rfl
  · rw [if_neg ha]
    try dsimp only
    refine ⟨h, fun k' => rfl, ?_, ?_⟩
    · exact rangeGo_top_nodup _ _ h.readNodup
    · intro k
      rw [rangeGo_top_alookup _ _ h.readNodup k, absM_def]
      rcases hr : alookup (loadRO s).1 k with _ | i
      · dsimp only
        rcases hd : alookup (dirtyL s) k with _ | i
        · rfl
        · exact absurd (h.amendedOfDirtyExtra k i hd hr) ha
      · rfl

/-! ### Simulation against the reference mapping -/

theorem alookup_ainsert_upd (r : List (K × V)) (k : K) (v : V) (k' : K) :
    alookup (ainsert r k v) k' = upd (alookup r) k (some v) k' := by
  unfold upd
  by_cases hk : k' = k
  · subst hk
    rw [if_pos rfl]
    exact alookup_ainsert_self _ _ _
  · rw [if_neg hk]
    exact alookup_ainsert_ne _ _ hk

theorem alookup_aerase_upd (r : List (K × V)) (k : K)
    (hnd : (r.map Prod.fst).Nodup) (k' : K) :
    alookup (aerase r k) k' = upd (alookup r) k none k' := by
  unfold upd
  by_cases hk : k' = k
  · subst hk
    rw [if_pos rfl]
    exact alookup_aerase_self _ _ hnd
  · rw [if_neg hk]
    exact alookup_aerase_ne _ hk

theorem runOp_sim (s : MapState K V) (r : List (K × V)) (op : Op K V)
    (h : Inv s) (hrel : absRel s r) (hnd : (r.map Prod.fst).Nodup) :
    (runOp s op).1 = (refRunOp r op).1 ∧
    Inv (runOp s op).2 ∧ absRel (runOp s op).2 (refRunOp r op).2 ∧
    ((refRunOp r op).2.map Prod.fst).Nodup := by
  cases op with
  | load k =>
    obtain ⟨h1, h2, h3⟩ := mapLoad_spec s h k
    refine ⟨?_, h2, ?_, hnd⟩
    · show OpResult.optRes (mapLoad s k).1 = OpResult.optRes (refLoad r k)
      rw [h1, hrel k]
      rfl
    · intro k'
      show absM (mapLoad s k).2 k' = alookup r k'
      rw [h3 k']
      exact hrel k'
  | store k v =>
    obtain ⟨h2, h3⟩ := mapStore_spec s h k v
    refine ⟨rfl, h2, ?_, ainsert_keys_nodup _ _ hnd⟩
    intro k'
    show absM (mapStore s k v) k' = alookup (refStore r k v) k'
    unfold refStore
    rw [h3 k', alookup_ainsert_upd]
    unfold upd
    by_cases hk : k' = k
    · rw [if_pos hk, if_pos hk]
    · rw [if_neg hk, if_neg hk]
      exact hrel k'
  | loadOrStore k v =>
    obtain ⟨h1, h2, h3⟩ := mapLoadOrStore_spec s h k v
    rcases hl : alookup r k with _ | w
    · have habs : absM s k = none := by rw [hrel k, hl]
      refine ⟨?_, h2, ?_, ?_⟩
      · show OpResult.valLoaded (mapLoadOrStore s k v).1.1 (mapLoadOrStore s k v).1.2
          = (refRunOp r (Op.loadOrStore k v)).1
        rw [h1, habs]
        show OpResult.valLoaded v false = OpResult.valLoaded (refLoadOrStore r k v).1.1
          (refLoadOrStore r k v).1.2
        unfold refLoadOrStore
        rw [hl]
      · intro k'
        show absM (mapLoadOrStore s k v).2 k' = alookup (refLoadOrStore r k v).2 k'
        rw [h3 k', habs]
        unfold refLoadOrStore
        rw [hl]
        dsimp only
        rw [alookup_ainsert_upd]
        unfold upd
        by_cases hk : k' = k
        · rw [if_pos hk, if_pos hk]
          rfl
        · rw [if_neg hk, if_neg hk]
          exact hrel k'
      · show ((refLoadOrStore r k v).2.map Prod.fst).Nodup
        unfold refLoadOrStore
        rw [hl]
        exact ainsert_keys_nodup _ _ hnd
    · have habs : absM s k = some w := by rw [hrel k, hl]
      refine ⟨?_, h2, ?_, ?_⟩
      · show OpResult.valLoaded (mapLoadOrStore s k v).1.1 (mapLoadOrStore s k v).1.2
          = (refRunOp r (Op.loadOrStore k v)).1
        rw [h1, habs]
        show OpResult.valLoaded w true = OpResult.valLoaded (refLoadOrStore r k v).1.1
          (refLoadOrStore r k v).1.2
        unfold refLoadOrStore
        rw [hl]
      · intro k'
        show absM (mapLoadOrStore s k v).2 k' = alookup (refLoadOrStore r k v).2 k'
        rw [h3 k', habs]
        unfold refLoadOrStore
        rw [hl]
        dsimp only
        unfold upd
        by_cases hk : k' = k
        · rw [if_pos hk, hk, hl]
          rfl
        · rw [if_neg hk]
          exact hrel k'
      · show ((refLoadOrStore r k v).2.map Prod.fst).Nodup
        unfold refLoadOrStore
        rw [hl]
        exact hnd
  | loadAndDelete k =>
    obtain ⟨h1, h2, h3⟩ := mapLoadAndDelete_spec s h k
    refine ⟨?_, h2, ?_, aerase_keys_nodup _ hnd⟩
    · show OpResult.optRes (mapLoadAndDelete s k).1 = OpResult.optRes (refLoadAndDelete r k).1
      rw [h1, hrel k]
      rfl
    · intro k'
      show absM (mapLoadAndDelete s k).2 k' = alookup (aerase r k) k'
      rw [h3 k', alookup_aerase_upd r k hnd]
      unfold upd
      by_cases hk : k' = k
      · rw [if_pos hk, if_pos hk]
      · rw [if_neg hk, if_neg hk]
        exact hrel k'
  | del k =>
    obtain ⟨h2, h3⟩ := mapDelete_spec s h k
    refine ⟨rfl, h2, ?_, aerase_keys_nodup _ hnd⟩
    intro k'
    show absM (mapDelete s k) k' = alookup (aerase r k) k'
    rw [h3 k', alookup_aerase_upd r k hnd]
    unfold upd
    by_cases hk : k' = k
    · rw [if_pos hk, if_pos hk]
    · rw [if_neg hk, if_neg hk]
      exact hrel k'
  | swap k v =>
    obtain ⟨h1, h2, h3⟩ := mapSwap_spec s h k v
    refine ⟨?_, h2, ?_, ainsert_keys_nodup _ _ hnd⟩
    · show OpResult.optRes (mapSwap s k v).1 = OpResult.optRes (refSwap r k v).1
      rw [h1, hrel k]
      rfl
    · intro k'
      show absM (mapSwap s k v).2 k' = alookup (ainsert r k v) k'
      rw [h3 k', alookup_ainsert_upd]
      unfold upd
      by_cases hk : k' = k
      · rw [if_pos hk, if_pos hk]
      · rw [if_neg hk, if_neg hk]
        exact hrel k'
  | cas k old nw =>
    obtain ⟨h1, h2, h3⟩ := mapCompareAndSwap_spec s h k old nw
    rcases hl : alookup r k with _ | w
    · have habs : absM s k = none := by rw [hrel k, hl]
      refine ⟨?_, h2, ?_, ?_⟩
      · show OpResult.boolRes (mapCompareAndSwap s k old nw).1
          = OpResult.boolRes (refCompareAndSwap r k old nw).1
        rw [h1, habs]
        unfold refCompareAndSwap
        rw [hl]
      · intro k'
        show absM (mapCompareAndSwap s k old nw).2 k' = alookup (refCompareAndSwap r k old nw).2 k'
        rw [h3 k', habs]
        unfold refCompareAndSwap
        rw [hl]
        dsimp only
        unfold upd
        by_cases hk : k' = k
        · rw [if_pos hk, hk, hl]
        · rw [if_neg hk]
          exact hrel k'
      · show ((refCompareAndSwap r k old nw).2.map Prod.fst).Nodup
        unfold refCompareAndSwap
        rw [hl]
        exact hnd
    · have habs : absM s k = some w := by rw [hrel k, hl]
      by_cases hw : w = old
      · refine ⟨?_, h2, ?_, ?_⟩
        · show OpResult.boolRes (mapCompareAndSwap s k old nw).1
            = OpResult.boolRes (refCompareAndSwap r k old nw).1
          rw [h1, habs]
          unfold refCompareAndSwap
          rw [hl]
          simp [hw]
        · intro k'
          show absM (mapCompareAndSwap s k old nw).2 k'
            = alookup (refCompareAndSwap r k old nw).2 k'
          rw [h3 k', habs]
          unfold refCompareAndSwap
          rw [hl]
          dsimp only
          rw [if_pos hw]
          unfold upd
          by_cases hk : k' = k
          · rw [if_pos hk, if_pos hw]
            dsimp only
            rw [hk, alookup_ainsert_self]
          · rw [if_neg hk, if_pos hw]
            dsimp only
            rw [alookup_ainsert_ne _ _ hk]
            exact hrel k'
        · show ((refCompareAndSwap r k old nw).2.map Prod.fst).Nodup
          unfold refCompareAndSwap
          rw [hl]
          dsimp only
          rw [if_pos hw]
          exact ainsert_keys_nodup _ _ hnd
      · refine ⟨?_, h2, ?_, ?_⟩
        · show OpResult.boolRes (mapCompareAndSwap s k old nw).1
            = OpResult.boolRes (refCompareAndSwap r k old nw).1
          rw [h1, habs]
          unfold refCompareAndSwap
          rw [hl]
          simp [hw]
        · intro k'
          show absM (mapCompareAndSwap s k old nw).2 k'
            = alookup (refCompareAndSwap r k old nw).2 k'
          rw [h3 k', habs]
          unfold refCompareAndSwap
          rw [hl]
          dsimp only
          rw [if_neg hw]
          unfold upd
          by_cases hk : k' = k
          · rw [if_pos hk, if_neg hw]
            dsimp only
            rw [hk, hl]
          · rw [if_neg hk, if_neg hw]
            dsimp only
            exact hrel k'
        · show ((refCompareAndSwap r k old nw).2.map Prod.fst).Nodup
          unfold refCompareAndSwap
          rw [hl]
          dsimp only
          rw [if_neg hw]
          exact hnd
  | cad k old =>
    obtain ⟨h1, h2, h3⟩ := mapCompareAndDelete_spec s h k old
    rcases hl : alookup r k with _ | w
    · have habs : absM s k = none := by rw [hrel k, hl]
      refine ⟨?_, h2, ?_, ?_⟩
      · show OpResult.boolRes (mapCompareAndDelete s k old).1
          = OpResult.boolRes (refCompareAndDelete r k old).1
        rw [h1, habs]
        unfold refCompareAndDelete
        rw [hl]
      · intro k'
        show absM (mapCompareAndDelete s k old).2 k'
          = alookup (refCompareAndDelete r k old).2 k'
        rw [h3 k', habs]
        unfold refCompareAndDelete
        rw [hl]
        dsimp only
        unfold upd
        by_cases hk : k' = k
        · rw [if_pos hk, hk, hl]
        · rw [if_neg hk]
          exact hrel k'
      · show ((refCompareAndDelete r k old).2.map Prod.fst).Nodup
        unfold refCompareAndDelete
        rw [hl]
        exact hnd
    · have habs : absM s k = some w := by rw [hrel k, hl]
      by_cases hw : w = old
      · refine ⟨?_, h2, ?_, ?_⟩
        · show OpResult.boolRes (mapCompareAndDelete s k old).1
            = OpResult.boolRes (refCompareAndDelete r k old).1
          rw [h1, habs]
          unfold refCompareAndDelete
          rw [hl]
          simp [hw]
        · intro k'
          show absM (mapCompareAndDelete s k old).2 k'
            = alookup (refCompareAndDelete r k old).2 k'
          rw [h3 k', habs]
          unfold refCompareAndDelete
          rw [hl]
          dsimp only
          rw [if_pos hw]
          unfold upd
          by_cases hk : k' = k
          · rw [if_pos hk, if_pos hw]
            dsimp only
            rw [hk, alookup_aerase_self _ _ hnd]
          · rw [if_neg hk, if_pos hw]
            dsimp only
            rw [alookup_aerase_ne _ hk]
            exact hrel k'
        · show ((refCompareAndDelete r k old).2.map Prod.fst).Nodup
          unfold refCompareAndDelete
          rw [hl]
          dsimp only
          rw [if_pos hw]
          exact aerase_keys_nodup _ hnd
      · refine ⟨?_, h2, ?_, ?_⟩
        · show OpResult.boolRes (mapCompareAndDelete s k old).1
            = OpResult.boolRes (refCompareAndDelete r k old).1
          rw [h1, habs]
          unfold refCompareAndDelete
          rw [hl]
          simp [hw]
        · intro k'
          show absM (mapCompareAndDelete s k old).2 k'
            = alookup (refCompareAndDelete r k old).2 k'
          rw [h3 k', habs]
          unfold refCompareAndDelete
          rw [hl]
          dsimp only
          rw [if_neg hw]
          unfold upd
          by_cases hk : k' = k
          · rw [if_pos hk, if_neg hw]
            dsimp only
            rw [hk, hl]
          · rw [if_neg hk, if_neg hw]
            dsimp only
            exact hrel k'
        · show ((refCompareAndDelete r k old).2.map Prod.fst).Nodup
          unfold refCompareAndDelete
          rw [hl]
          dsimp only
          rw [if_neg hw]
          exact hnd
  | clear =>
    obtain ⟨h2, h3⟩ := mapClear_spec s h
    refine ⟨rfl, h2, ?_, List.nodup_nil⟩
    intro k'
    show absM (mapClear s) k' = alookup ([] : List (K × V)) k'
    rw [h3 k']
    rfl

theorem runOps_sim (ops : List (Op K V)) :
    ∀ (s : MapState K V) (r : List (K × V)), Inv s → absRel s r →
      (r.map Prod.fst).Nodup →
      (runOps s ops).1 = (refRunOps r ops).1 ∧
      Inv (runOps s ops).2 ∧ absRel (runOps s ops).2 (refRunOps r ops).2 ∧
      ((refRunOps r ops).2.map Prod.fst).Nodup := by
  induction ops with
  | nil => exact fun s r h hrel hnd => ⟨rfl, h, hrel, hnd⟩
  | cons op ops ih =>
    intro s r h hrel hnd
    obtain ⟨h1, h2, h3, h4⟩ := runOp_sim s r op h hrel hnd
    obtain ⟨g1, g2, g3, g4⟩ := ih (runOp s op).2 (refRunOp r op).2 h2 h3 h4
    refine ⟨?_, g2, g3, g4⟩
    show (runOp s op).1 :: (runOps (runOp s op).2 ops).1
      = (refRunOp r op).1 :: (refRunOps (refRunOp r op).2 ops).1
    rw [h1, g1]

theorem reachable_inv {s : MapState K V} (h : Reachable s) : Inv s := by
  obtain ⟨ops, hs⟩ := h
  rw [hs]
  exact ((runOps_sim ops (initState K V) [] inv_initState
    (fun k => absM_initState k) (by simp)).2.1)

/-! ### Helper lemmas for the claim theorems -/

theorem missLocked_records (t : MapState K V) :
    (missLocked t).misses = t.misses + 1 ∨
    ((missLocked t).dirty = none ∧ (missLocked t).misses = 0) := by
  unfold missLocked
  dsimp only
  split
  · exact Or.inl rfl
  · exact Or.inr ⟨rfl, rfl⟩

theorem mapClear_shape (s : MapState K V) :
    (loadRO (mapClear s)).1 = [] ∧ (loadRO (mapClear s)).2 = false := by
  unfold mapClear
  by_cases hc : (loadRO s).1.length = 0 ∧ (loadRO s).2 = false
  · rw [if_pos hc]
    exact ⟨List.length_eq_zero.1 hc.1, hc.2⟩
  · rw [if_neg hc]
    have hcond : 0 < (loadRO s).1.length ∨ (loadRO s).2 = true := by
      by_cases h1 : (loadRO s).1.length = 0
      · refine Or.inr ?_
        cases h2 : (loadRO s).2
        · exact absurd ⟨h1, h2⟩ hc
        · rfl
      · exact Or.inl (Nat.pos_of_ne_zero h1)
    dsimp only
    rw [if_pos hcond]
    exact ⟨rfl, rfl⟩

theorem mapClear_noop (s : MapState K V) (h1 : (loadRO s).1 = [])
    (h2 : (loadRO s).2 = false) : mapClear s = s := by
  unfold mapClear
  rw [if_pos ⟨by rw [h1]; rfl, h2⟩]

theorem mapRange_of_clean (s : MapState K V) (h1 : (loadRO s).1 = [])
    (h2 : (loadRO s).2 = false) (f : K → V → Bool) :
    (mapRange s f).1 = [] := by
  unfold mapRange
  dsimp only
  rw [if_neg (by rw [h2]; exact Bool.false_ne_true), h1]
  rfl

/-! ### The claim theorems -/

/-- Claim C1: every finite sequence of Load, Store, LoadOrStore,
LoadAndDelete, Delete, Swap, CompareAndSwap, CompareAndDelete and Clear
operations applied sequentially to a zero-value map returns exactly the
results the plain reference mapping returns for the same sequence, and a
trailing always-true Range observes exactly the reference mapping's final
key/value contents (each key once). -/
theorem c1_sequential_refinement (ops : List (Op K V)) :
    (runOps (initState K V) ops).1 = (refRunOps ([] : List (K × V)) ops).1 ∧
    (((mapRange (runOps (initState K V) ops).2 (fun _ _ => true)).1.map
        Prod.fst).Nodup ∧
     ∀ k, alookup (mapRange (runOps (initState K V) ops).2
        (fun _ _ => true)).1 k
       = alookup (refRunOps ([] : List (K × V)) ops).2 k) := by
  obtain ⟨h1, h2, h3, h4⟩ := runOps_sim ops (initState K V) [] inv_initState
    (fun k => absM_initState k) List.nodup_nil
  obtain ⟨_, _, g3, g4⟩ := mapRange_spec _ h2
  exact ⟨h1, g3, fun k => by rw [g4 k, h3 k]⟩

/-- Claim C2: from any reachable state, CompareAndSwap on an absent key
returns false and leaves the contents unchanged; on a present key it
returns true and replaces the value with the new one exactly when the
current value equals the expected one, and otherwise returns false with no
mutation. -/
theorem c2_compareAndSwap_semantics (s : MapState K V) (hs : Reachable s)
    (k : K) (old nw : V) :
    (absM s k = none →
      (mapCompareAndSwap s k old nw).1 = false ∧
      ∀ k', absM (mapCompareAndSwap s k old nw).2 k' = absM s k') ∧
    (∀ w, absM s k = some w →
      (mapCompareAndSwap s k old nw).1 = decide (w = old) ∧
      ∀ k', absM (mapCompareAndSwap s k old nw).2 k'
        = if k' = k ∧ w = old then some nw else absM s k') := by
  obtain ⟨h1, h2, h3⟩ := mapCompareAndSwap_spec s (reachable_inv hs) k old nw
  constructor
  · intro hn
    refine ⟨?_, ?_⟩
    · rw [h1, hn]
    · intro k'
      rw [h3 k', hn]
      dsimp only
      unfold upd
      by_cases hk : k' = k
      · rw [if_pos hk, hk, hn]
      · rw [if_neg hk]
  · intro w hw
    refine ⟨?_, ?_⟩
    · rw [h1, hw]
    · intro k'
      rw [h3 k', hw]
      dsimp only
      unfold upd
      by_cases hk : k' = k
      · rw [if_pos hk]
        by_cases hwo : w = old
        · rw [if_pos hwo, if_pos ⟨hk, hwo⟩]
        · have hcn : ¬ (k' = k ∧ w = old) := fun hcc => hwo hcc.2
          rw [if_neg hwo, if_neg hcn, hk, hw]
      · have hcn : ¬ (k' = k ∧ w = old) := fun hcc => hk hcc.1
        rw [if_neg hk, if_neg hcn]

/-- Witness for C2 at a concrete reachable state. -/
theorem c2_compareAndSwap_semantics_witness :
    (absM (runOps (initState Nat Nat) [Op.store 1 5]).2 1 = none →
      (mapCompareAndSwap (runOps (initState Nat Nat) [Op.store 1 5]).2
        1 5 7).1 = false ∧
      ∀ k', absM (mapCompareAndSwap (runOps (initState Nat Nat)
          [Op.store 1 5]).2 1 5 7).2 k'
        = absM (runOps (initState Nat Nat) [Op.store 1 5]).2 k') ∧
    (∀ w, absM (runOps (initState Nat Nat) [Op.store 1 5]).2 1 = some w →
      (mapCompareAndSwap (runOps (initState Nat Nat) [Op.store 1 5]).2
        1 5 7).1 = decide (w = 5) ∧
      ∀ k', absM (mapCompareAndSwap (runOps (initState Nat Nat)
          [Op.store 1 5]).2 1 5 7).2 k'
        = if k' = 1 ∧ w = 5 then some 7
          else absM (runOps (initState Nat Nat) [Op.store 1 5]).2 k') :=
  c2_compareAndSwap_semantics (runOps (initState Nat Nat) [Op.store 1 5]).2
    ⟨[Op.store 1 5], rfl⟩ 1 5 7

/-- Claim C3: `missLocked` with the incremented counter still below the
dirty overlay's size changes only the counter; once the counter is no
longer below that size, the dirty overlay itself becomes the entry list of
a newly published non-amended snapshot, the overlay is cleared to nil and
the counter resets to zero. -/
theorem c3_missLocked_promotion (s : MapState K V) :
    (s.misses + 1 < (dirtyL s).length →
      missLocked s = { s with misses := s.misses + 1 }) ∧
    (¬ s.misses + 1 < (dirtyL s).length →
      missLocked s = { s with
        read := some (dirtyL s, false), dirty := none, misses := 0 }) := by
  constructor
  · intro hlt
    unfold missLocked
    dsimp only
    rw [if_pos hlt]
  · intro hge
    unfold missLocked
    dsimp only
    rw [if_neg hge]

/-- Witness for C3: one concrete miss below the threshold and one at it. -/
theorem c3_missLocked_promotion_witness :
    missLocked (MapState.mk (K := Nat) (V := Nat) (some ([], true))
        (some [(1, 0), (2, 1)]) 0 [Cell.live 5, Cell.live 6])
      = MapState.mk (some ([], true)) (some [(1, 0), (2, 1)]) 1
          [Cell.live 5, Cell.live 6] ∧
    missLocked (MapState.mk (K := Nat) (V := Nat) (some ([], true))
        (some [(1, 0)]) 0 [Cell.live 5])
      = MapState.mk (some ([(1, 0)], false)) none 0 [Cell.live 5] :=
  ⟨(c3_missLocked_promotion _).1 (by decide),
   (c3_missLocked_promotion _).2 (by decide)⟩

/-- Claim C4 as written is false: `Swap` (and hence `Store`), when its
locked slow path resolves the key through the dirty overlay, performs the
swap but does not record a miss.  After `Store 1 1; Swap 1 2` from a
zero-value map the pre-swap state resolves key 1 through the dirty overlay
(absent from the snapshot, snapshot amended, present in the overlay), yet
the swap leaves the miss counter and the dirty overlay exactly as they
were: no counter increment and no promotion happened. -/
theorem c4_counterexample :
    alookup (loadRO (runOps (initState Nat Nat) [Op.store 1 1]).2).1 1
      = none ∧
    (loadRO (runOps (initState Nat Nat) [Op.store 1 1]).2).2 = true ∧
    alookup (dirtyL (runOps (initState Nat Nat) [Op.store 1 1]).2) 1
      = some 0 ∧
    (runOps (initState Nat Nat) [Op.store 1 1]).2.misses = 0 ∧
    (runOps (initState Nat Nat) [Op.store 1 1]).2.dirty = some [(1, 0)] ∧
    (runOps (initState Nat Nat) [Op.store 1 1, Op.swap 1 2]).2.misses = 0 ∧
    (runOps (initState Nat Nat) [Op.store 1 1, Op.swap 1 2]).2.dirty
      = some [(1, 0)] :=
  ⟨rfl, rfl, rfl, rfl, rfl, rfl, rfl⟩

/-- Claim C4, amended: when the locked slow path resolves a key through the
dirty overlay (absent from the re-read snapshot, snapshot amended, present
in the overlay), LoadOrStore, LoadAndDelete, Delete, CompareAndSwap and
CompareAndDelete record a miss (counter increment or promotion), while Swap
and Store perform the primitive without touching the miss counter or the
overlay reference. -/
theorem c4_dirty_path_miss_accounting (s : MapState K V) (k : K) (i : Nat)
    (v old nw : V) (hr : alookup (loadRO s).1 k = none)
    (ha : (loadRO s).2 = true) (hd : alookup (dirtyL s) k = some i) :
    missRecorded s (mapLoadOrStore s k v).2 ∧
    missRecorded s (mapLoadAndDelete s k).2 ∧
    missRecorded s (mapDelete s k) ∧
    missRecorded s (mapCompareAndSwap s k old nw).2 ∧
    missRecorded s (mapCompareAndDelete s k old).2 ∧
    (mapSwap s k v).2.misses = s.misses ∧
    (mapSwap s k v).2.dirty = s.dirty ∧
    (mapStore s k v).misses = s.misses ∧
    (mapStore s k v).dirty = s.dirty := by
  refine ⟨?_, ?_, ?_, ?_, ?_, ?_, ?_, ?_, ?_⟩
  · unfold mapLoadOrStore mapLoadOrStoreSlow missRecorded
    rw [hr, hd]
    try dsimp only
    exact missLocked_records _
  · unfold mapLoadAndDelete missRecorded
    rw [hr, if_pos ha, hd]
    try dsimp only
    exact missLocked_records _
  · unfold mapDelete mapLoadAndDelete missRecorded
    rw [hr, if_pos ha, hd]
    try dsimp only
    exact missLocked_records _
  · unfold mapCompareAndSwap missRecorded
    rw [hr, if_pos ha, hd]
    try dsimp only
    exact missLocked_records _
  · unfold mapCompareAndDelete missRecorded
    rw [hr, if_pos ha, hd]
    try dsimp only
    exact missLocked_records _
  · unfold mapSwap mapSwapSlow
    rw [hr, hd]
  · unfold mapSwap mapSwapSlow
    rw [hr, hd]
  · unfold mapStore mapSwap mapSwapSlow
    rw [hr, hd]
  · unfold mapStore mapSwap mapSwapSlow
    rw [hr, hd]

/-- Witness for the amended C4 at a concrete dirty-overlay state. -/
theorem c4_dirty_path_miss_accounting_witness :
    missRecorded (runOps (initState Nat Nat) [Op.store 1 1]).2
      (mapLoadOrStore (runOps (initState Nat Nat) [Op.store 1 1]).2 1 3).2 ∧
    missRecorded (runOps (initState Nat Nat) [Op.store 1 1]).2
      (mapLoadAndDelete (runOps (initState Nat Nat) [Op.store 1 1]).2 1).2 ∧
    missRecorded (runOps (initState Nat Nat) [Op.store 1 1]).2
      (mapDelete (runOps (initState Nat Nat) [Op.store 1 1]).2 1) ∧
    missRecorded (runOps (initState Nat Nat) [Op.store 1 1]).2
      (mapCompareAndSwap (runOps (initState Nat Nat) [Op.store 1 1]).2
        1 4 5).2 ∧
    missRecorded (runOps (initState Nat Nat) [Op.store 1 1]).2
      (mapCompareAndDelete (runOps (initState Nat Nat) [Op.store 1 1]).2
        1 4).2 ∧
    (mapSwap (runOps (initState Nat Nat) [Op.store 1 1]).2 1 3).2.misses
      = (runOps (initState Nat Nat) [Op.store 1 1]).2.misses ∧
    (mapSwap (runOps (initState Nat Nat) [Op.store 1 1]).2 1 3).2.dirty
      = (runOps (initState Nat Nat) [Op.store 1 1]).2.dirty ∧
    (mapStore (runOps (initState Nat Nat) [Op.store 1 1]).2 1 3).misses
      = (runOps (initState Nat Nat) [Op.store 1 1]).2.misses ∧
    (mapStore (runOps (initState Nat Nat) [Op.store 1 1]).2 1 3).dirty
      = (runOps (initState Nat Nat) [Op.store 1 1]).2.dirty :=
  c4_dirty_path_miss_accounting (runOps (initState Nat Nat) [Op.store 1 1]).2
    1 0 3 4 5 rfl rfl rfl

/-- Claim C5: in every reachable state, a key present in the dirty overlay
but absent from the snapshot's entries implies the snapshot's amended flag
is set. -/
theorem c5_dirty_extra_implies_amended (s : MapState K V) (hs : Reachable s)
    (k : K) (i : Nat) (hd : alookup (dirtyL s) k = some i)
    (hr : alookup (loadRO s).1 k = none) : (loadRO s).2 = true :=
  (reachable_inv hs).amendedOfDirtyExtra k i hd hr

/-- Witness for C5 at a concrete reachable state. -/
theorem c5_dirty_extra_implies_amended_witness :
    (loadRO (runOps (initState Nat Nat) [Op.store 1 1]).2).2 = true :=
  c5_dirty_extra_implies_amended (runOps (initState Nat Nat) [Op.store 1 1]).2
    ⟨[Op.store 1 1], rfl⟩ 1 0 rfl rfl

/-- Claim C6: from any reachable state, the sequence Store(k,v1);
Delete(k); Store(k,v2); Load(k) ends with the load returning v2 — the key
is never lost across the delete/re-store cycle. -/
theorem c6_store_delete_store_load (s : MapState K V) (hs : Reachable s)
    (k : K) (v1 v2 : V) :
    (runOps s [Op.store k v1, Op.del k, Op.store k v2, Op.load k]).1
      = [OpResult.unitRes, OpResult.unitRes, OpResult.unitRes,
         OpResult.optRes (some v2)] := by
  have h := reachable_inv hs
  obtain ⟨h1, h2⟩ := mapStore_spec s h k v1
  obtain ⟨h3, h4⟩ := mapDelete_spec _ h1 k
  obtain ⟨h5, h6⟩ := mapStore_spec _ h3 k v2
  obtain ⟨h7, _, _⟩ := mapLoad_spec _ h5 k
  show [OpResult.unitRes, OpResult.unitRes, OpResult.unitRes,
        OpResult.optRes
          (mapLoad (mapStore (mapDelete (mapStore s k v1) k) k v2) k).1]
      = [OpResult.unitRes, OpResult.unitRes, OpResult.unitRes,
         OpResult.optRes (some v2)]
  rw [h7, h6 k]
  unfold upd
  rw [if_pos rfl]

/-- Witness for C6 starting from the zero-value map. -/
theorem c6_store_delete_store_load_witness :
    (runOps (initState Nat Nat)
        [Op.store 1 10, Op.del 1, Op.store 1 20, Op.load 1]).1
      = [OpResult.unitRes, OpResult.unitRes, OpResult.unitRes,
         OpResult.optRes (some 20)] :=
  c6_store_delete_store_load (initState Nat Nat) ⟨[], rfl⟩ 1 10 20

/-- Claim C7: a Range with an always-true visitor, from any reachable
state, visits each key present in the map exactly once with its current
value, and visits no other key. -/
theorem c7_range_completeness (s : MapState K V) (hs : Reachable s) :
    ((mapRange s (fun _ _ => true)).1.map Prod.fst).Nodup ∧
    ∀ k, alookup (mapRange s (fun _ _ => true)).1 k = absM s k := by
  obtain ⟨_, _, h3, h4⟩ := mapRange_spec s (reachable_inv hs)
  exact ⟨h3, h4⟩

/-- Witness for C7 at a concrete reachable state. -/
theorem c7_range_completeness_witness :
    (((mapRange (runOps (initState Nat Nat) [Op.store 1 5, Op.store 2 6]).2
        (fun _ _ => true)).1.map Prod.fst).Nodup ∧
     ∀ k, alookup (mapRange (runOps (initState Nat Nat)
          [Op.store 1 5, Op.store 2 6]).2 (fun _ _ => true)).1 k
       = absM (runOps (initState Nat Nat) [Op.store 1 5, Op.store 2 6]).2 k) :=
  c7_range_completeness
    (runOps (initState Nat Nat) [Op.store 1 5, Op.store 2 6]).2
    ⟨[Op.store 1 5, Op.store 2 6], rfl⟩

/-- Claim C8: after a Clear the map is empty (an always-true Range visits
nothing), a second Clear is a no-op on the already-cleared state, and the
map is still empty after it. -/
theorem c8_clear_twice (s : MapState K V) :
    (mapRange (mapClear s) (fun _ _ => true)).1 = [] ∧
    mapClear (mapClear s) = mapClear s ∧
    (mapRange (mapClear (mapClear s)) (fun _ _ => true)).1 = [] := by
  obtain ⟨he, hf⟩ := mapClear_shape s
  have hr1 : (mapRange (mapClear s) (fun _ _ => true)).1 = [] :=
    mapRange_of_clean _ he hf _
  have hcc : mapClear (mapClear s) = mapClear s := mapClear_noop _ he hf
  exact ⟨hr1, hcc, by rw [hcc]; exact hr1⟩

/-- Claim C9: a zero-value map (nil snapshot pointer) reads as an empty,
non-amended snapshot: Load finds nothing and leaves the state untouched,
Range visits nothing, Clear is a no-op, and the abstract contents are
empty. -/
theorem c9_zero_value_map (k : K) :
    loadRO (initState K V) = ([], false) ∧
    (mapLoad (initState K V) k).1 = none ∧
    (mapLoad (initState K V) k).2 = initState K V ∧
    (mapRange (initState K V) (fun _ _ => true)).1 = [] ∧
    mapClear (initState K V) = initState K V ∧
    absM (initState K V) k = none :=
  ⟨rfl, rfl, rfl, rfl, rfl, rfl⟩

/-- Claim C10: the compare of CompareAndSwap and CompareAndDelete uses Go
interface equality, so when a live entry's value and the caller's expected
value both have a non-comparable dynamic type the call panics, while a
comparable dynamic type never panics (values of different dynamic types
just compare unequal). -/
theorem c10_noncomparable_panic (a b : Nat) (nw : GoVal) :
    tryCompareAndSwapGo (Cell.live (GoVal.noncmp a)) (GoVal.noncmp b) nw
      = Except.error () ∧
    compareAndDeleteGo (Cell.live (GoVal.noncmp a)) (GoVal.noncmp b)
      = Except.error () ∧
    (∀ (x : Nat) (old nw2 : GoVal), ∃ r,
      tryCompareAndSwapGo (Cell.live (GoVal.cmp x)) old nw2
        = Except.ok r) := by
  refine ⟨rfl, rfl, ?_⟩
  intro x old nw2
  cases old with
  | cmp y =>
    by_cases hxy : x = y
    · exact ⟨(true, Cell.live nw2), by simp [tryCompareAndSwapGo, goEq, hxy]⟩
    · exact ⟨(false, Cell.live (GoVal.cmp x)),
        by simp [tryCompareAndSwapGo, goEq, hxy]⟩
  | noncmp y => exact ⟨(false, Cell.live (GoVal.cmp x)), rfl⟩

end XSync
